import Mathlib

/-!
A shallow embedding of the vector-path construction kernel
(`custom_shapes.js`, together with the `Vector` collaborator from
`Vector.js`) and proofs about it.

Modelling conventions:
* JavaScript numbers are modelled as rationals (`ℚ`); no claim below
  depends on floating-point rounding.
* JavaScript objects used as attribute bags (the vertex-property template
  and `Vertex` instances) are modelled as association lists in insertion
  order, matching the `for ... in` iteration order for string keys.
* Fallible JavaScript code (a `throw`, or a `TypeError` from dereferencing
  `undefined`) is modelled with `Except`/`Option`; a `none`/`.error` result
  corresponds to the JavaScript call throwing.
* The `p5.Color` collaborator is not part of the sources; its
  array-conversion contract (a 4-component color convertible to and from
  its flat numeric form) is modelled from the spec.
-/

namespace CustomShapes

/-- Contour/shape kind constants (`constants.js` of the original project:
`PATH`, `EMPTY_PATH`, `POINTS`, ..., plus the `SWEEP` kind added by this
repository).  Only distinctness of the constants matters here. -/
inductive ShapeKind where
  | PATH
  | EMPTY_PATH
  | POINTS
  | LINES
  | TRIANGLES
  | QUADS
  | TRIANGLE_FAN
  | TRIANGLE_STRIP
  | QUAD_STRIP
  | SWEEP
  deriving DecidableEq, Repr

/-- Spline end-mode constants `INCLUDE`, `EXCLUDE`, `JOIN`. -/
inductive EndMode where
  | INCLUDE
  | EXCLUDE
  | JOIN
  deriving DecidableEq, Repr

/-- Close-mode constants `OPEN`, `CLOSE`. -/
inductive CloseMode where
  | OPEN
  | CLOSE
  deriving DecidableEq, Repr

/-- A JavaScript value as it occurs as a vertex-attribute value:
`null`, `undefined`, a primitive number, a boxed `new Number(x)`,
a plain numeric array, a `Vector` (3 components, `src/Vector.js`),
or a `Color`.

The `Color` collaborator is modelled from the spec: a 4-component color
value exposing an `array()` conversion to its flat numeric form and
reconstructible from a 4-element array. -/
inductive JSVal where
  | null
  | undefined
  | num (x : ℚ)
  | boxedNum (x : ℚ)
  | arr (xs : List ℚ)
  | vec (x y z : ℚ)
  | color (c1 c2 c3 c4 : ℚ)
  deriving DecidableEq, Repr

/-- A JavaScript object used as an attribute bag: association list in
insertion order (`for ... in` order for non-numeric string keys).  Keys are
unique in an actual JavaScript object. -/
abbrev JSObj := List (String × JSVal)

/-- A `Vertex` is a bag of named attribute values (the `Vertex` class
copies the entries of the properties object passed to its constructor). -/
abbrev Vertex := JSObj

/-- JavaScript property read `o[k]`: `undefined` when the key is absent. -/
def jsGet (o : JSObj) (k : String) : JSVal :=
  match o.find? (fun p => p.1 == k) with
  | some p => p.2
  | none => .undefined

/-- JavaScript `k in o` test. -/
def jsHas (o : JSObj) (k : String) : Bool :=
  o.any (fun p => p.1 == k)

/-- `k in o` for the `userVertexProperties` map (keys to arities). -/
def jsHasN (o : List (String × ℕ)) (k : String) : Bool :=
  o.any (fun p => p.1 == k)

/-- JavaScript property write `o[k] = v`: replaces in place when the key
exists (keeping its position), appends otherwise. -/
def jsSet (o : JSObj) (k : String) (v : JSVal) : JSObj :=
  if jsHas o k then o.map (fun p => if p.1 == k then (k, v) else p)
  else o ++ [(k, v)]

/-- `Array.prototype.at`: supports negative indices from the end;
`undefined` when out of range either way. -/
def jsAt {α : Type} (l : List α) (i : ℤ) : Option α :=
  if 0 ≤ i then l.get? i.toNat
  else if 0 ≤ i + l.length then l.get? (i + l.length).toNat
  else none

/-- Replace the last element of a list (no-op on `[]`); models updating in
place the object returned by `list.at(-1)`. -/
def updateLast {α : Type} (l : List α) (f : α → α) : List α :=
  match l with
  | [] => []
  | [a] => [f a]
  | a :: rest => a :: updateLast rest f

-- ---- GENERIC ATTRIBUTE SERIALIZATION ----

/-- `Shape.serializeToArray(val)`.

Note on the `val instanceof Number` branch: a primitive JavaScript number
is not an `instanceof Number` (only a boxed `new Number(x)` object is), and
reading `.array` off a primitive number yields `undefined`, so for a bare
number control falls through every branch to the final `throw`. -/
def serializeToArray : JSVal → Except String (List ℚ)
  | .null => .ok []
  | .undefined => .ok []
  | .num _ => .error "TypeMismatch: cannot convert value to array"
  | .boxedNum x => .ok [x]
  | .arr xs => .ok xs
  | .vec x y z => .ok [x, y, z]
  | .color c1 c2 c3 c4 => .ok [c1, c2, c3, c4]

/-- `Shape.hydrateValue(queue, original)`: dequeues based on the shape of
the template's example value `original` and rebuilds a value of that shape.

The function has no `else` branch: a primitive number template (which is
not `instanceof Number`) and an `undefined` template fall through every
check and the function returns `undefined` without consuming the queue.
`queue.shift()` on an exhausted queue yields `undefined` in JavaScript; a
reconstructed array/`Vector`/`Color` with such `undefined` components
leaves the numeric domain modelled here and is mapped to `none`. -/
def hydrateValue (queue : List ℚ) : JSVal → Option (JSVal × List ℚ)
  | .null => some (.null, queue)
  | .undefined => some (.undefined, queue)
  | .num _ => some (.undefined, queue)
  | .boxedNum _ =>
    match queue with
    | [] => some (.undefined, [])
    | x :: rest => some (.num x, rest)
  | .arr xs =>
    if xs.length ≤ queue.length then
      some (.arr (queue.take xs.length), queue.drop xs.length)
    else none
  | .vec _ _ _ =>
    match queue with
    | a :: b :: c :: rest => some (.vec a b c, rest)
    | _ => none
  | .color _ _ _ _ =>
    match queue with
    | a :: b :: c :: d :: rest => some (.color a b c d, rest)
    | _ => none

-- ---- CURVE MATH (array helpers and Catmull-Rom conversion) ----

/-- `Array.prototype.map` with the element's index (the `(v, i) => ...`
callbacks of the array helpers). -/
def mapWithIndex {α β : Type} (f : ℕ → α → β) : List α → List β
  | [] => []
  | a :: as => f 0 a :: mapWithIndex (fun i v => f (i + 1) v) as

/-- `Shape.arrayScale(array, scale)`. -/
def arrayScale (array : List ℚ) (scale : ℚ) : List ℚ :=
  array.map (fun v => v * scale)

/-- `Shape.arraySum(first, ...rest)`: componentwise sum driven by the
indices of `first`.  (In JavaScript an out-of-range `rest[j][i]` read would
poison the component with `NaN`; all calls in scope use equal lengths.) -/
def arraySum (first : List ℚ) (rest : List (List ℚ)) : List ℚ :=
  mapWithIndex (fun i v => v + (rest.map (fun r => r.getD i 0)).sum) first

/-- `Shape.arrayMinus(a, b)` (same remark about equal lengths). -/
def arrayMinus (a b : List ℚ) : List ℚ :=
  mapWithIndex (fun i v => v - b.getD i 0) a

/-- `Shape.catmullRomToBezier(vertices, tightness)`: for every window of
four consecutive control points `(a,b,c,d)` emit the Bezier control triple
`[b + s/6·(c−a), c + s/6·(b−d), c]` with `s = 1 - tightness` (written
inline below). -/
def catmullRomToBezier (vertices : List (List ℚ)) (tightness : ℚ) :
    List (List (List ℚ)) :=
  (List.range (vertices.length - 3)).map (fun i =>
    [arraySum (vertices.getD (i + 1) [])
       [arrayScale
         (arrayMinus (vertices.getD (i + 2) []) (vertices.getD i []))
         ((1 - tightness) / 6)],
     arraySum (vertices.getD (i + 2) [])
       [arrayScale
         (arrayMinus (vertices.getD (i + 1) []) (vertices.getD (i + 3) []))
         ((1 - tightness) / 6)],
     vertices.getD (i + 2) []])

-- ---- PRIMITIVES, CONTOURS, SHAPE ----

/-- The closed set of concrete primitive variants (`Anchor`, `LineSegment`,
`BezierSegment`, `SplineSegment`, `TriangleStrip`).  The abstract classes
`ShapePrimitive` and `Segment` cannot be instantiated (their constructors
throw), so no tag is needed for them. -/
inductive PrimKind where
  | anchor
  | lineSegment
  | bezierSegment
  | splineSegment
  | triangleStrip
  deriving DecidableEq, Repr

/-- A spline-property record `{ ends, tightness }`. -/
structure SplineRecord where
  ends : EndMode
  tightness : ℚ
  deriving DecidableEq, Repr

/-- A concrete `ShapePrimitive`.

`order` is `BezierSegment`'s numerical order (meaningful only for that
variant).  `splineProperties` is `SplineSegment`'s own `_splineProperties`
snapshot (meaningful only for that variant; default `{ends: INCLUDE,
tightness: 0}`).  In the source, `_shape`, `_contoursIndex` and
`_primitivesIndex` are set together when the primitive is attached;
`location` bundles the two indices, with `none` standing for the
unattached state (`_shape === null`). -/
structure ShapePrimitive where
  kind : PrimKind
  vertices : List Vertex
  order : ℕ := 0
  splineProperties : SplineRecord := ⟨.INCLUDE, 0⟩
  location : Option (ℕ × ℕ) := none
  isClosing : Bool := false
  deriving DecidableEq, Repr

/-- `vertexCount` getter. -/
def ShapePrimitive.vertexCount (p : ShapePrimitive) : ℕ :=
  p.vertices.length

/-- `vertexCapacity` getter of each variant; `none` models `Infinity`. -/
def ShapePrimitive.vertexCapacity (p : ShapePrimitive) : Option ℕ :=
  match p.kind with
  | .anchor => some 1
  | .lineSegment => some 1
  | .bezierSegment => some p.order
  | .splineSegment => none
  | .triangleStrip => none

/-- The shared `ShapePrimitive` constructor: throws when no vertex is
passed.  (The abstract-class guards are unrepresentable here because
`PrimKind` only has concrete variants.) -/
def mkShapePrimitive (kind : PrimKind) (order : ℕ) (vertices : List Vertex) :
    Except String ShapePrimitive :=
  if vertices.isEmpty then
    .error "At least one vertex must be passed to the constructor."
  else
    .ok { kind := kind, order := order, vertices := vertices }

/-- A `Contour`: its private `#kind` (here `kindRaw`) and its primitives. -/
structure Contour where
  kindRaw : ShapeKind
  primitives : List ShapePrimitive
  deriving DecidableEq, Repr

/-- The `Contour.kind` getter: an empty contour whose raw kind is `PATH`
reports the derived kind `EMPTY_PATH`. -/
def Contour.kind (c : Contour) : ShapeKind :=
  if c.primitives.isEmpty && c.kindRaw == .PATH then .EMPTY_PATH else c.kindRaw

/-- Total number of vertices stored across a contour's primitives. -/
def Contour.totalVertexCount (c : Contour) : ℕ :=
  (c.primitives.map (fun p => p.vertices.length)).sum

/-- The `Shape` state.

`#bezierOrder` is initially the bare number `3`; the `bezierOrder(...)`
setter is not among the build operations modelled here, so the stored value
stays a bare number and `BezierSegment`'s numerical-order normalization
(`Array.isArray(order) ? order[0] : order`) is the identity on it; the
field is therefore kept as the numerical order `bezierOrderNum`.
`userVertexProperties` maps registered user-attribute keys to their
arities; the initial `null` is identified with the empty map (both iterate
no keys and fail every `key in` test). -/
structure Shape where
  vertexProperties : JSObj
  initialVertexProperties : JSObj
  kind : Option ShapeKind := none
  contours : List Contour := []
  splineProperties : SplineRecord := ⟨.INCLUDE, 0⟩
  userVertexProperties : List (String × ℕ) := []
  bezierOrderNum : ℕ := 3
  deriving DecidableEq, Repr

/-- The `Shape` constructor with an initial vertex-property template.
(The per-attribute setter methods the constructor installs are irrelevant
to the modelled operations.) -/
def Shape.mk0 (vertexProperties : JSObj) : Shape :=
  { vertexProperties := vertexProperties,
    initialVertexProperties := vertexProperties }

/-- `Shape.at(contoursIndex)`. -/
def Shape.atContour (s : Shape) (ci : ℤ) : Option Contour :=
  jsAt s.contours ci

/-- `Shape.at(contoursIndex, primitivesIndex)`; `none` also covers the
`TypeError` thrown when the contour lookup yields `undefined`. -/
def Shape.atPrimitive (s : Shape) (ci pi : ℤ) : Option ShapePrimitive :=
  (s.atContour ci).bind (fun c => jsAt c.primitives pi)

/-- `Shape.at(contoursIndex, primitivesIndex, verticesIndex)`. -/
def Shape.atVertex (s : Shape) (ci pi vi : ℤ) : Option Vertex :=
  (s.atPrimitive ci pi).bind (fun p => jsAt p.vertices vi)

-- ---- ATTACH/MERGE ----

/-- `lastPrimitive.vertexCapacity - lastPrimitive.vertexCount`; `none`
models an infinite spare capacity.  (For a finite capacity, JavaScript
could compute a negative spare, and truncated subtraction yields `0`; both
fail the `spareCapacity > 0` test, so the behavior agrees.) -/
def spareCapacity (p : ShapePrimitive) : Option ℕ :=
  p.vertexCapacity.map (fun cap => cap - p.vertexCount)

/-- `spareCapacity > 0` (`Infinity > 0` is true). -/
def sparePos : Option ℕ → Bool
  | none => true
  | some k => 0 < k

/-- `this.vertices.splice(0, spareCapacity)`: the removed leading
vertices. -/
def takeSpare {α : Type} (vs : List α) : Option ℕ → List α
  | none => vs
  | some k => vs.take k

/-- The vertices remaining in `this.vertices` after the splice. -/
def dropSpare {α : Type} (vs : List α) : Option ℕ → List α
  | none => []
  | some k => vs.drop k

/-- `ShapePrimitive.addToShape(shape)` (the base-class version).

Returns the updated shape together with the `addedToShape` flag (whether
`this` itself ended up attached, i.e. `this.vertices.length > 0` after the
merge); `none` models the `TypeError` when the shape has no contour.  The
returned primitive `shape.at(-1, -1)` of the source is recoverable from
the updated shape. -/
def ShapePrimitive.addToShape (self : ShapePrimitive) (shape : Shape) :
    Option (Shape × Bool) :=
  match jsAt shape.contours (-1) with
  | none => none
  | some lastContour =>
    let ci := shape.contours.length - 1
    if lastContour.primitives.isEmpty then
      -- lastContour.primitives.push(this)
      let added := decide (0 < self.vertices.length)
      let self' := if added then { self with location := some (ci, 0) } else self
      let contours' := updateLast shape.contours (fun c => { c with primitives := [self'] })
      some ({ shape with contours := contours' }, added)
    else
      match (jsAt lastContour.primitives (-1)) with
      | none => none
      | some lastPrimitive =>
        let hasSameType := lastPrimitive.kind == self.kind
        let spare := spareCapacity lastPrimitive
        if hasSameType && sparePos spare then
          let pushableVertices := takeSpare self.vertices spare
          let remainingVertices := dropSpare self.vertices spare
          let lastPrimitive' :=
            { lastPrimitive with vertices := lastPrimitive.vertices ++ pushableVertices }
          if remainingVertices.isEmpty then
            -- the new primitive is discarded (never attached)
            let contours' := updateLast shape.contours (fun c =>
              { c with primitives := updateLast c.primitives (fun _ => lastPrimitive') })
            some ({ shape with contours := contours' }, false)
          else
            let self' := { self with
              vertices := remainingVertices
              location := some (ci, lastContour.primitives.length) }
            let contours' := updateLast shape.contours (fun c =>
              { c with primitives := updateLast c.primitives (fun _ => lastPrimitive') ++ [self'] })
            some ({ shape with contours := contours' }, true)
        else
          let self' := { self with location := some (ci, lastContour.primitives.length) }
          let contours' := updateLast shape.contours (fun c =>
            { c with primitives := c.primitives ++ [self'] })
          some ({ shape with contours := contours' }, true)

/-- Update the last primitive of the last contour in place (the object
`shape.at(-1, -1)` of the source). -/
def Shape.modifyLastPrimitive (s : Shape) (f : ShapePrimitive → ShapePrimitive) :
    Shape :=
  { s with contours :=
    updateLast s.contours (fun c => { c with primitives := updateLast c.primitives f }) }

/-- `SplineSegment.addToShape(shape)`: the base attach, then
`this._splineProperties` is copied from the shape's current spline
properties.  That assignment is visible in the shape only when `this`
itself was attached (it is then the last primitive of the last contour);
when all vertices were merged away, the assignment hits the discarded
object.  The non-fatal chaining warning (`console.warn`) does not change
the state. -/
def splineAddToShape (self : ShapePrimitive) (shape : Shape) : Option Shape := do
  let (s1, added) ← self.addToShape shape
  if added then
    some (s1.modifyLastPrimitive (fun p =>
      { p with splineProperties := shape.splineProperties }))
  else
    some s1

/-- Visitor-style dispatch of the attach call: `SplineSegment` overrides
`addToShape`, every other variant uses the base version. -/
def addToShapeDispatch (self : ShapePrimitive) (shape : Shape) : Option Shape :=
  match self.kind with
  | .splineSegment => splineAddToShape self shape
  | _ => (self.addToShape shape).map Prod.fst

-- ---- PRIMITIVE SHAPE CREATORS ----

/-- The build-operation kinds keying the creator map. -/
inductive VertexOpKind where
  | vertex
  | bezierVertex
  | splineVertex
  deriving DecidableEq, Repr

/-- The pre-populated `PrimitiveShapeCreators` map, keyed by
`"<operation>-<contourKind>"`; `none` models a missing entry (calling the
`undefined` creator throws).  Each creator constructs the variant below
from the supplied vertices (the `bezierVertex` creators additionally take
the order, threaded separately in `createPrimitiveShape`). -/
def primitiveShapeCreatorsGet (vertexKind : VertexOpKind) (shapeKind : ShapeKind) :
    Option PrimKind :=
  match vertexKind, shapeKind with
  | .vertex, .EMPTY_PATH => some .anchor
  | .vertex, .PATH => some .lineSegment
  | .vertex, .TRIANGLE_STRIP => some .triangleStrip
  | .bezierVertex, .EMPTY_PATH => some .anchor
  | .bezierVertex, .PATH => some .bezierSegment
  | .splineVertex, .EMPTY_PATH => some .anchor
  | .splineVertex, .PATH => some .splineSegment
  | _, _ => none

-- ---- SHAPE BUILD OPERATIONS ----

/-- `Shape.#createVertex(position, textureCoordinates)`: writes `position`
(and `textureCoordinates` when supplied) into the template, then the new
`Vertex` is a copy of the template.  `undefined` for `textureCoordinates`
models the argument being absent (`textureCoordinates !== undefined`).
Returns the mutated template (the new vertex is a copy of it). -/
def Shape.createVertexTemplate (s : Shape) (position textureCoordinates : JSVal) :
    JSObj :=
  let t1 := jsSet s.vertexProperties "position" position
  if textureCoordinates != .undefined then
    jsSet t1 "textureCoordinates" textureCoordinates
  else t1

/-- `Shape.#createPrimitiveShape(vertexKind, shapeKind, ...vertices)`:
looks up the creator and invokes it (passing `#bezierOrder` for a
`bezierVertex`); `none` covers both a missing creator and the
constructor's own throw. -/
def Shape.createPrimitiveShape (s : Shape) (vertexKind : VertexOpKind)
    (shapeKind : ShapeKind) (vertices : List Vertex) : Option ShapePrimitive :=
  match primitiveShapeCreatorsGet vertexKind shapeKind with
  | none => none
  | some primKind =>
    match mkShapePrimitive primKind s.bezierOrderNum vertices with
    | .ok p => some p
    | .error _ => none

/-- `Shape.#generalVertex(kind, position, textureCoordinates)`: creates a
vertex from the template, builds a primitive keyed by the last contour's
kind, and lets it attach itself to the shape. -/
def Shape.generalVertex (s : Shape) (kind : VertexOpKind)
    (position textureCoordinates : JSVal) : Option Shape :=
  match jsAt s.contours (-1) with
  | none => none
  | some lastContour =>
    let lastContourKind := lastContour.kind
    let template := s.createVertexTemplate position textureCoordinates
    let vertex : Vertex := template
    let s1 : Shape := { s with vertexProperties := template }
    match s1.createPrimitiveShape kind lastContourKind [vertex] with
    | none => none
    | some primitiveShape => addToShapeDispatch primitiveShape s1

/-- `Shape.vertex(position, textureCoordinates, {isClosing})`: the general
vertex operation, then `added.isClosing = isClosing` on the returned
primitive `shape.at(-1, -1)`. -/
def Shape.vertex (s : Shape) (position textureCoordinates : JSVal)
    (isClosing : Bool) : Option Shape :=
  (s.generalVertex .vertex position textureCoordinates).map
    (fun s' => s'.modifyLastPrimitive (fun p => { p with isClosing := isClosing }))

/-- `Shape.bezierVertex(position, textureCoordinates)`. -/
def Shape.bezierVertex (s : Shape) (position textureCoordinates : JSVal) :
    Option Shape :=
  s.generalVertex .bezierVertex position textureCoordinates

/-- `Shape.splineVertex(position, textureCoordinates)`. -/
def Shape.splineVertex (s : Shape) (position textureCoordinates : JSVal) :
    Option Shape :=
  s.generalVertex .splineVertex position textureCoordinates

/-- `Shape.beginContour(shapeKind)`: discards a trailing still-empty
`EMPTY_PATH` contour, then pushes a new contour of the given kind. -/
def Shape.beginContour (s : Shape) (shapeKind : ShapeKind) : Shape :=
  let s1 :=
    if (jsAt s.contours (-1)).map Contour.kind == some .EMPTY_PATH then
      { s with contours := s.contours.dropLast }
    else s
  { s1 with contours := s1.contours ++ [⟨shapeKind, []⟩] }

/-- `Shape.beginShape(shapeKind)`: records the kind and implicitly opens
the first contour with the same kind. -/
def Shape.beginShape (s : Shape) (shapeKind : ShapeKind) : Shape :=
  Shape.beginContour { s with kind := some shapeKind } shapeKind

-- ---- CLOSING ----

/-- `handlesClose()`: `false` on the base class; a `SplineSegment` handles
closing exactly when it is attached and the contour at its stored
`_contoursIndex` has exactly two primitives of which it is the second.
`none` models the `TypeError` when the stored contour index is out of
range (`this._shape.at(...)` yields `undefined`). -/
def ShapePrimitive.handlesClose (p : ShapePrimitive) (s : Shape) : Option Bool :=
  match p.kind with
  | .splineSegment =>
    match p.location with
    | none => some false
    | some (ci, pi) =>
      match jsAt s.contours (ci : ℤ) with
      | none => none
      | some contour => some (contour.primitives.length == 2 && pi == 1)
  | _ => some false

/-- `close(vertex)`: only `SplineSegment` overrides it (switching its
end-mode to `JOIN`, ignoring the argument); the base class throws. -/
def ShapePrimitive.close (p : ShapePrimitive) : Option ShapePrimitive :=
  match p.kind with
  | .splineSegment =>
    some { p with splineProperties := { p.splineProperties with ends := .JOIN } }
  | _ => none

/-- Patch the template copy with every non-position/non-texture attribute
value of the anchor vertex (the `for key in anchorVertex` loop). -/
def patchTemplate (tmpl : JSObj) (anchorVertex : Vertex) : JSObj :=
  anchorVertex.foldl (fun acc kv =>
    if kv.1 == "position" || kv.1 == "textureCoordinates" then acc
    else jsSet acc kv.1 kv.2) tmpl

/-- `Shape.endContour(closeMode, _index)`.

With `CLOSE`: fetch the target contour, its anchor vertex (a `TypeError`,
i.e. `none`, when the contour has no primitives) and its last primitive;
on a `PATH` contour whose anchor vertex has a `position`, either delegate
to a self-handling last primitive, or temporarily splice off the trailing
contours, patch a copy of the template from the anchor vertex, emit the
closing vertex, restore the original template and splice the trailing
contours back. -/
def Shape.endContour (s : Shape) (closeMode : CloseMode) (idx : ℕ) : Option Shape :=
  match closeMode with
  | .OPEN => some s
  | .CLOSE =>
    match jsAt s.contours (idx : ℤ) with
    | none => none
    | some contour =>
      let isPath := contour.kind == .PATH
      match s.atVertex idx 0 0 with
      | none => none
      | some anchorVertex =>
        let anchorHasPosition := jsHas anchorVertex "position"
        match s.atPrimitive idx (-1) with
        | none => none
        | some lastSegment =>
          if isPath && anchorHasPosition then
            match lastSegment.handlesClose s with
            | none => none
            | some true =>
              match lastSegment.close with
              | none => none
              | some lastSegment' =>
                let contours' := s.contours.set idx
                  { contour with primitives := updateLast contour.primitives (fun _ => lastSegment') }
                some { s with contours := contours' }
            | some false =>
              let rest := s.contours.drop (idx + 1)
              let prevVertexProperties := s.vertexProperties
              let patched := patchTemplate prevVertexProperties anchorVertex
              let s1 : Shape := { s with
                contours := s.contours.take (idx + 1)
                vertexProperties := patched }
              match s1.vertex (jsGet anchorVertex "position")
                  (jsGet anchorVertex "textureCoordinates") true with
              | none => none
              | some s2 =>
                some { s2 with
                  vertexProperties := prevVertexProperties
                  contours := s2.contours ++ rest }
          else
            some s

/-- `Shape.endShape(closeMode)`: with `CLOSE`, closes contour index 0
(the contour implicitly used for shape data added without an explicit
contour); otherwise does nothing. -/
def Shape.endShape (s : Shape) (closeMode : CloseMode) : Option Shape :=
  match closeMode with
  | .CLOSE => s.endContour .CLOSE 0
  | .OPEN => some s

-- ---- BUILD-OPERATION SEQUENCES ----

/-- One build operation of the claim's operation set. -/
inductive BuildOp where
  | vertexOp (position textureCoordinates : JSVal) (isClosing : Bool)
  | bezierVertexOp (position textureCoordinates : JSVal)
  | splineVertexOp (position textureCoordinates : JSVal)
  | beginContourOp (kind : ShapeKind)
  | endContourOp (closeMode : CloseMode)
  | endShapeOp (closeMode : CloseMode)
  deriving DecidableEq, Repr

/-- Apply one build operation (with `endContour`'s index at its default,
the last contour). -/
def Shape.applyOp (s : Shape) : BuildOp → Option Shape
  | .vertexOp p tc c => s.vertex p tc c
  | .bezierVertexOp p tc => s.bezierVertex p tc
  | .splineVertexOp p tc => s.splineVertex p tc
  | .beginContourOp k => some (s.beginContour k)
  | .endContourOp m => s.endContour m (s.contours.length - 1)
  | .endShapeOp m => s.endShape m

/-- Run a sequence of build operations. -/
def Shape.runOps (s : Shape) : List BuildOp → Option Shape
  | [] => some s
  | op :: rest => (s.applyOp op).bind (fun s' => s'.runOps rest)

-- ---- VERTEX (DE)SERIALIZATION ----

/-- The first loop of `Shape.vertexToArray`: iterate the template's keys,
skipping registered user properties, and serialize the vertex's value for
each key (an absent property reads as `undefined`, which serializes to the
empty array). -/
def serializeTemplateKeys (userProps : List (String × ℕ)) (vertex : Vertex) :
    List (String × JSVal) → Except String (List ℚ)
  | [] => .ok []
  | (k, _) :: restKeys =>
    if jsHasN userProps k then serializeTemplateKeys userProps vertex restKeys
    else do
      let l ← serializeToArray (jsGet vertex k)
      let r ← serializeTemplateKeys userProps vertex restKeys
      .ok (l ++ r)

/-- The second loop of `Shape.vertexToArray`: for each registered user
property, serialize the vertex's value when the key is present, else push
the registered arity of zeros. -/
def serializeUserKeys (vertex : Vertex) :
    List (String × ℕ) → Except String (List ℚ)
  | [] => .ok []
  | (k, arity) :: restKeys =>
    if jsHas vertex k then do
      let l ← serializeToArray (jsGet vertex k)
      let r ← serializeUserKeys vertex restKeys
      .ok (l ++ r)
    else do
      let r ← serializeUserKeys vertex restKeys
      .ok (List.replicate arity (0 : ℚ) ++ r)

/-- `Shape.vertexToArray(vertex)`. -/
def Shape.vertexToArray (s : Shape) (vertex : Vertex) : Except String (List ℚ) := do
  let a ← serializeTemplateKeys s.userVertexProperties vertex s.vertexProperties
  let b ← serializeUserKeys vertex s.userVertexProperties
  .ok (a ++ b)

/-- The first loop of `Shape.arrayToVertex`: hydrate each non-user
template key from the template's example value, consuming the queue.
(Keys of a JavaScript object are unique, so the iterated entry's value is
the property value `this.#vertexProperties[key]`.) -/
def hydrateTemplateKeys (userProps : List (String × ℕ)) (queue : List ℚ) :
    List (String × JSVal) → Option (Vertex × List ℚ)
  | [] => some ([], queue)
  | (k, original) :: restKeys =>
    if jsHasN userProps k then hydrateTemplateKeys userProps queue restKeys
    else do
      let (v, q1) ← hydrateValue queue original
      let (vtx, q2) ← hydrateTemplateKeys userProps q1 restKeys
      some ((k, v) :: vtx, q2)

/-- The second loop of `Shape.arrayToVertex`: hydrate each user key from
its template example value. -/
def hydrateUserKeys (tmpl : JSObj) (queue : List ℚ) :
    List (String × ℕ) → Option (Vertex × List ℚ)
  | [] => some ([], queue)
  | (k, _) :: restKeys => do
    let (v, q1) ← hydrateValue queue (jsGet tmpl k)
    let (vtx, q2) ← hydrateUserKeys tmpl q1 restKeys
    some ((k, v) :: vtx, q2)

/-- `Shape.arrayToVertex(array)`. -/
def Shape.arrayToVertex (s : Shape) (array : List ℚ) : Option Vertex := do
  let (v1, q1) ← hydrateTemplateKeys s.userVertexProperties array s.vertexProperties
  let (v2, _) ← hydrateUserKeys s.vertexProperties q1 s.userVertexProperties
  some (v1 ++ v2)

-- ---- DERIVED NOTIONS USED IN STATEMENTS ----

/-- The number of array elements a value contributes when serialized
(`0` for a value whose serialization throws). -/
def serializedLength (v : JSVal) : ℕ :=
  match serializeToArray v with
  | .ok l => l.length
  | .error _ => 0

/-- The full output length determined by the template: the serialized
length of every non-user template value plus the registered arity of every
user property. -/
def Shape.templateFullLength (s : Shape) : ℕ :=
  ((s.vertexProperties.filter
      (fun kv => ! jsHasN s.userVertexProperties kv.1)).map
    (fun kv => serializedLength kv.2)).sum
  + (s.userVertexProperties.map Prod.snd).sum

/-- The vertex with every absent registered user attribute filled in
explicitly with its registered arity of zeros. -/
def Shape.fillAbsentUserKeys (s : Shape) (vertex : Vertex) : Vertex :=
  vertex ++
    (s.userVertexProperties.filter (fun kn => ! jsHas vertex kn.1)).map
      (fun kn => (kn.1, .arr (List.replicate kn.2 0)))

/-- Invariant (a): a primitive's vertex count never exceeds its capacity
(a `none` capacity models `Infinity`, which no count can exceed). -/
def primOK (p : ShapePrimitive) : Prop :=
  ∀ cap, p.vertexCapacity = some cap → p.vertexCount ≤ cap

/-- Every primitive of the contour respects its capacity and holds at
least one vertex. -/
def contourPrimsOK (c : Contour) : Prop :=
  ∀ p ∈ c.primitives, primOK p ∧ 1 ≤ p.vertexCount

/-- Invariant (b): a non-empty contour whose raw kind is `PATH` starts
with exactly one anchor holding exactly one vertex. -/
def contourFirstAnchorOK (c : Contour) : Prop :=
  c.kindRaw = .PATH → c.primitives ≠ [] →
    ∃ p rest, c.primitives = p :: rest ∧ p.kind = .anchor ∧ p.vertices.length = 1

/-- Both per-contour invariants over a contour list. -/
def contoursInv (l : List Contour) : Prop :=
  ∀ c ∈ l, contourPrimsOK c ∧ contourFirstAnchorOK c

/-- The build invariant carried through the operation sequence (the
Bezier-order component makes newly created Bezier segments respect their
capacity; it is `3` initially and no modelled operation changes it). -/
def buildInv (s : Shape) : Prop :=
  contoursInv s.contours ∧ 1 ≤ s.bezierOrderNum

-- ---- CONCRETE INPUTS USED BY THE EVALUATION THEOREMS BELOW ----

/-- A template whose sole attribute is a bare number. -/
def numTemplateShape : Shape :=
  Shape.mk0 [("a", .num 5)]

/-- A vertex whose sole attribute is a bare number. -/
def numVertex : Vertex :=
  [("a", .num 5)]

/-- A one-vertex spline segment sitting at the end of a contour. -/
def w4lp : ShapePrimitive :=
  { kind := .splineSegment, vertices := [[("position", .vec 0 0 0)]],
    location := some (0, 1) }

/-- The anchor primitive opening the concrete contour below. -/
def w4anchor : ShapePrimitive :=
  { kind := .anchor, vertices := [[("position", .vec 0 0 0)]],
    location := some (0, 0) }

/-- A two-primitive path contour ending in `w4lp`. -/
def w4lc : Contour :=
  { kindRaw := .PATH, primitives := [w4anchor, w4lp] }

/-- A shape holding just the contour `w4lc`. -/
def w4shape : Shape :=
  { Shape.mk0 [("position", .vec 0 0 0)] with contours := [w4lc] }

/-- A new two-vertex spline segment to merge into `w4lp`. -/
def w4p : ShapePrimitive :=
  { kind := .splineSegment,
    vertices := [[("position", .vec 1 0 0)], [("position", .vec 2 0 0)]] }

/-- The last primitive of `w4lc` after `w4p` fully merges into it. -/
def w4lpMerged : ShapePrimitive :=
  { w4lp with vertices := w4lp.vertices ++ w4p.vertices }

/-- The contour `w4lc` after the merge. -/
def w4lcMerged : Contour :=
  { w4lc with primitives := [w4anchor, w4lpMerged] }

/-- The shape `w4shape` after the merge. -/
def w4merged : Shape :=
  { w4shape with contours := [w4lcMerged] }

/-- A one-vertex line segment following `w4anchor`. -/
def w7line : ShapePrimitive :=
  { kind := .lineSegment, vertices := [[("position", .vec 1 0 0)]],
    location := some (0, 1) }

/-- A path contour `[anchor, line]`, which does not self-handle closing. -/
def w7lc : Contour :=
  { kindRaw := .PATH, primitives := [w4anchor, w7line] }

/-- A shape holding just the contour `w7lc`. -/
def w7shape : Shape :=
  { Shape.mk0 [("position", .vec 0 0 0)] with contours := [w7lc] }

/-- The closing line segment emitted when `w7shape` is closed. -/
def w7closingLine : ShapePrimitive :=
  { kind := .lineSegment, vertices := [[("position", .vec 0 0 0)]],
    order := 3, location := some (0, 2), isClosing := true }

/-- The shape `w7shape` after `endContour(CLOSE, 0)`. -/
def w7closed : Shape :=
  { w7shape with contours :=
      [{ kindRaw := .PATH, primitives := [w4anchor, w7line, w7closingLine] }] }

/-- A shape with a position template and a registered 3-component user
attribute. -/
def w9shape : Shape :=
  { Shape.mk0 [("position", .vec 0 0 0), ("aSrc", .arr [1, 2, 3])] with
    userVertexProperties := [("aSrc", 3)] }

/-- A vertex carrying only a position (the user attribute is absent). -/
def w9vertex : Vertex :=
  [("position", .vec 5 6 7)]

/-- The spec's worked triangle example as a build-operation sequence:
three `vertex` calls then `endShape(CLOSE)`. -/
def w6ops : List BuildOp :=
  [.vertexOp (.vec 0 0 0) .undefined false,
   .vertexOp (.vec 1 0 0) .undefined false,
   .vertexOp (.vec 1 1 0) .undefined false,
   .endShapeOp .CLOSE]

/-- The anchor opening the triangle contour. -/
def w6anchor : ShapePrimitive :=
  { kind := .anchor, vertices := [[("position", .vec 0 0 0)]],
    order := 3, location := some (0, 0) }

/-- The closed triangle contour: the anchor, two sides, and the closing
side back to the anchor position. -/
def w6contour : Contour :=
  { kindRaw := .PATH,
    primitives :=
      [w6anchor,
       { kind := .lineSegment, vertices := [[("position", .vec 1 0 0)]],
         order := 3, location := some (0, 1) },
       { kind := .lineSegment, vertices := [[("position", .vec 1 1 0)]],
         order := 3, location := some (0, 2) },
       { kind := .lineSegment, vertices := [[("position", .vec 0 0 0)]],
         order := 3, location := some (0, 3), isClosing := true }] }

/-- The shape produced by running `w6ops` from
`(Shape.mk0 [("position", vec 0 0 0)]).beginShape PATH`. -/
def w6shape : Shape :=
  { vertexProperties := [("position", .vec 1 1 0)],
    initialVertexProperties := [("position", .vec 0 0 0)],
    kind := some .PATH,
    contours := [w6contour] }

-- ====================================================================
-- LEMMAS
-- ====================================================================

theorem jsAt_natCast {α : Type} (l : List α) (n : ℕ) : jsAt l n = l.get? n := by
  simp [jsAt]

theorem jsAt_neg_one {α : Type} (l : List α) : jsAt l (-1) = l.getLast? := by
  unfold jsAt
  cases l with
  | nil => simp
  | cons x xs =>
    have hnn : (0 : ℤ) ≤ -1 + (x :: xs).length := by
      simp
    have htn : ((-1 : ℤ) + (x :: xs).length).toNat = xs.length := by
      simp
    simp only [if_neg (by norm_num : ¬ (0:ℤ) ≤ -1), if_pos hnn, htn]
    rw [List.get?_eq_getElem?, List.getLast?_eq_getElem?]
    simp

theorem exists_concat_of_jsAt_neg_one {α : Type} {l : List α} {a : α}
    (h : jsAt l (-1) = some a) : ∃ l', l = l' ++ [a] := by
  rw [jsAt_neg_one] at h
  exact List.getLast?_eq_some_iff.mp h

theorem updateLast_concat {α : Type} (l : List α) (a : α) (f : α → α) :
    updateLast (l ++ [a]) f = l ++ [f a] := by
  induction l with
  | nil => rfl
  | cons x xs ih =>
    cases xs with
    | nil => rfl
    | cons y ys => simpa [updateLast] using ih

theorem takeSpare_append_dropSpare {α : Type} (vs : List α) (o : Option ℕ) :
    takeSpare vs o ++ dropSpare vs o = vs := by
  cases o with
  | none => simp [takeSpare, dropSpare]
  | some k => simp [takeSpare, dropSpare]

theorem length_takeSpare_add_length_dropSpare {α : Type} (vs : List α) (o : Option ℕ) :
    (takeSpare vs o).length + (dropSpare vs o).length = vs.length := by
  have h := congrArg List.length (takeSpare_append_dropSpare vs o)
  simpa using h

theorem length_updateLast {α : Type} (l : List α) (f : α → α) :
    (updateLast l f).length = l.length := by
  induction l with
  | nil => rfl
  | cons a rest ih =>
    cases rest with
    | nil => rfl
    | cons b t => simpa [updateLast] using ih

theorem jsAt_neg_one_isSome {α : Type} {l : List α} (h : l ≠ []) :
    ∃ a, jsAt l (-1) = some a := by
  rw [jsAt_neg_one]
  rcases List.eq_nil_or_concat l with rfl | ⟨l', a, rfl⟩
  · exact absurd rfl h
  · exact ⟨a, by simp⟩

theorem drop_set_of_lt {α : Type} (l : List α) (i n : ℕ) (a : α) (h : i < n) :
    (l.set i a).drop n = l.drop n := by
  apply List.ext_getElem?
  intro m
  rw [List.getElem?_drop, List.getElem?_drop, List.getElem?_set_ne (by omega)]

theorem getLast?_take {α : Type} (l : List α) (i : ℕ) (a : α)
    (h : l.get? i = some a) : (l.take (i + 1)).getLast? = some a := by
  have hi : i < l.length := (List.get?_eq_some.mp h).1
  have hlen : (l.take (i + 1)).length = i + 1 := by
    rw [List.length_take]
    omega
  rw [List.getLast?_eq_getElem?, hlen]
  simp only [Nat.add_sub_cancel]
  rw [List.getElem?_take, if_pos (by omega)]
  rw [List.get?_eq_getElem?] at h
  exact h

/-- A `mapWithIndex` that adds a pointwise-zero function is the
identity. -/
theorem mapWithIndex_add_zero (l : List ℚ) (g : ℕ → ℚ) (hg : ∀ i, g i = 0) :
    mapWithIndex (fun i v => v + g i) l = l := by
  induction l generalizing g with
  | nil => rfl
  | cons a as ih =>
    show (a + g 0) :: mapWithIndex (fun i v => v + g (i + 1)) as = a :: as
    rw [hg 0, add_zero, ih (fun i => g (i + 1)) (fun i => hg (i + 1))]

theorem getD_zero_of_all_zero (zs : List ℚ) (hz : ∀ x ∈ zs, x = 0) (i : ℕ) :
    zs.getD i 0 = 0 := by
  rcases Nat.lt_or_ge i zs.length with h | h
  · rw [List.getD_eq_getElem _ _ h]
    exact hz _ (List.getElem_mem h)
  · exact List.getD_eq_default _ _ h

theorem arraySum_zero (b zs : List ℚ) (hz : ∀ x ∈ zs, x = 0) :
    arraySum b [zs] = b := by
  unfold arraySum
  have hg : ∀ i, ([zs].map (fun r => r.getD i 0)).sum = 0 := by
    intro i
    simp only [List.map_cons, List.map_nil, List.sum_cons, List.sum_nil, add_zero]
    exact getD_zero_of_all_zero zs hz i
  exact mapWithIndex_add_zero b _ hg

theorem jsAt_zero {α : Type} (l : List α) : jsAt l 0 = l[0]? := by
  rw [show jsAt l 0 = l.get? 0 from by simp [jsAt], List.get?_eq_getElem?]

theorem jsAt_coe {α : Type} (l : List α) (n : ℕ) : jsAt l (n : ℤ) = l[n]? := by
  rw [jsAt_natCast, List.get?_eq_getElem?]

theorem addToShape_length {self : ShapePrimitive} {shape s' : Shape} {b : Bool}
    (h : self.addToShape shape = some (s', b)) :
    s'.contours.length = shape.contours.length := by
  unfold ShapePrimitive.addToShape at h
  rcases hjs : jsAt shape.contours (-1) with _ | lastContour
  · simp [hjs] at h
  · simp only [hjs] at h
    cases hbool : lastContour.primitives.isEmpty
    · simp only [hbool, Bool.false_eq_true, if_false] at h
      rcases hjp : jsAt lastContour.primitives (-1) with _ | lastPrimitive
      · simp [hjp] at h
      · simp only [hjp] at h
        cases hcond : (lastPrimitive.kind == self.kind
            && sparePos (spareCapacity lastPrimitive))
        · simp only [hcond, Bool.false_eq_true, if_false] at h
          rw [Option.some_inj, Prod.mk.injEq] at h
          rw [← h.1]
          simp [length_updateLast]
        · simp only [hcond, if_true] at h
          cases hrem : (dropSpare self.vertices (spareCapacity lastPrimitive)).isEmpty
          · simp only [hrem, Bool.false_eq_true, if_false] at h
            rw [Option.some_inj, Prod.mk.injEq] at h
            rw [← h.1]
            simp [length_updateLast]
          · simp only [hrem, if_true] at h
            rw [Option.some_inj, Prod.mk.injEq] at h
            rw [← h.1]
            simp [length_updateLast]
    · simp only [hbool, if_true] at h
      rw [Option.some_inj, Prod.mk.injEq] at h
      rw [← h.1]
      simp [length_updateLast]

theorem addToShape_total {self : ShapePrimitive} {shape : Shape} {lc : Contour}
    (hjs : jsAt shape.contours (-1) = some lc) :
    ∃ r, self.addToShape shape = some r := by
  unfold ShapePrimitive.addToShape
  simp only [hjs]
  cases hbool : lc.primitives.isEmpty
  · simp only [Bool.false_eq_true, if_false]
    have hne : lc.primitives ≠ [] := by
      intro hcon
      rw [hcon] at hbool
      exact absurd hbool (by simp)
    obtain ⟨lp, hlp⟩ := jsAt_neg_one_isSome hne
    simp only [hlp]
    cases hcond : (lp.kind == self.kind && sparePos (spareCapacity lp))
    · simp only [Bool.false_eq_true, if_false]
      exact ⟨_, rfl⟩
    · simp only [if_true]
      cases hrem : (dropSpare self.vertices (spareCapacity lp)).isEmpty
      · simp only [Bool.false_eq_true, if_false]
        exact ⟨_, rfl⟩
      · simp only [if_true]
        exact ⟨_, rfl⟩
  · simp only [if_true]
    exact ⟨_, rfl⟩

theorem modifyLastPrimitive_contours_length (s : Shape)
    (f : ShapePrimitive → ShapePrimitive) :
    (s.modifyLastPrimitive f).contours.length = s.contours.length := by
  simp [Shape.modifyLastPrimitive, length_updateLast]

theorem addToShapeDispatch_some {self : ShapePrimitive} {shape : Shape}
    {lc : Contour} (hjs : jsAt shape.contours (-1) = some lc) :
    ∃ s', addToShapeDispatch self shape = some s'
      ∧ s'.contours.length = shape.contours.length := by
  obtain ⟨⟨s1, added⟩, hr⟩ := @addToShape_total self shape lc hjs
  have hlen : s1.contours.length = shape.contours.length := addToShape_length hr
  unfold addToShapeDispatch
  cases hk : self.kind
  case splineSegment =>
    unfold splineAddToShape
    simp only [hr, Option.bind_eq_bind, Option.some_bind]
    cases added
    · exact ⟨s1, rfl, hlen⟩
    · exact ⟨_, rfl, by rw [modifyLastPrimitive_contours_length]; exact hlen⟩
  all_goals simp only [hr, Option.map_some']
  all_goals exact ⟨s1, rfl, hlen⟩

theorem generalVertex_some {s : Shape} {k : VertexOpKind} {pos tc : JSVal}
    {lc : Contour} (hjs : jsAt s.contours (-1) = some lc)
    {pk : PrimKind} (hpk : primitiveShapeCreatorsGet k lc.kind = some pk) :
    ∃ s', s.generalVertex k pos tc = some s'
      ∧ s'.contours.length = s.contours.length := by
  unfold Shape.generalVertex
  simp only [hjs]
  have hcp : ∀ (s1 : Shape) (v : Vertex),
      s1.createPrimitiveShape k lc.kind [v] =
        some { kind := pk, order := s1.bezierOrderNum, vertices := [v] } := by
    intro s1 v
    simp [Shape.createPrimitiveShape, hpk, mkShapePrimitive]
  rw [hcp]
  exact addToShapeDispatch_some (by simpa using hjs)

theorem vertex_some {s : Shape} {pos tc : JSVal} {cl : Bool} {lc : Contour}
    (hjs : jsAt s.contours (-1) = some lc)
    {pk : PrimKind} (hpk : primitiveShapeCreatorsGet .vertex lc.kind = some pk) :
    ∃ s', s.vertex pos tc cl = some s'
      ∧ s'.contours.length = s.contours.length := by
  obtain ⟨s1, h1, hlen⟩ := generalVertex_some hjs hpk
  unfold Shape.vertex
  rw [h1]
  exact ⟨_, rfl, by rw [modifyLastPrimitive_contours_length]; exact hlen⟩

theorem addToShapeDispatch_length {self : ShapePrimitive} {shape s' : Shape}
    (h : addToShapeDispatch self shape = some s') :
    s'.contours.length = shape.contours.length := by
  unfold addToShapeDispatch at h
  split at h
  · -- SplineSegment override
    unfold splineAddToShape at h
    cases hr : self.addToShape shape with
    | none => simp [hr] at h
    | some r =>
      obtain ⟨s1, added⟩ := r
      simp only [hr, Option.bind_eq_bind, Option.some_bind] at h
      cases added
      · simp only [Bool.false_eq_true, if_false, Option.some_inj] at h
        rw [← h]
        exact addToShape_length hr
      · simp only [if_true, Option.some_inj] at h
        rw [← h, modifyLastPrimitive_contours_length]
        exact addToShape_length hr
  · -- base class
    cases hr : self.addToShape shape with
    | none => simp [hr] at h
    | some r =>
      obtain ⟨s1, b⟩ := r
      simp only [hr, Option.map_some', Option.some_inj] at h
      rw [← h]
      exact addToShape_length hr

theorem generalVertex_length {s s' : Shape} {k : VertexOpKind} {pos tc : JSVal}
    (h : s.generalVertex k pos tc = some s') :
    s'.contours.length = s.contours.length := by
  simp only [Shape.generalVertex] at h
  split at h
  · exact absurd h (by simp)
  · split at h
    · exact absurd h (by simp)
    · simpa using addToShapeDispatch_length h

theorem vertex_length {s s' : Shape} {pos tc : JSVal} {cl : Bool}
    (h : s.vertex pos tc cl = some s') :
    s'.contours.length = s.contours.length := by
  unfold Shape.vertex at h
  cases hg : s.generalVertex .vertex pos tc with
  | none => simp [hg] at h
  | some s1 =>
    simp only [hg, Option.map_some', Option.some_inj] at h
    rw [← h, modifyLastPrimitive_contours_length]
    exact generalVertex_length hg

/-- Every successful `endContour(CLOSE, i)` leaves the contours after
index `i` unchanged (they are spliced off and spliced back, or never
touched). -/
theorem endContour_drop {s s' : Shape} {i : ℕ}
    (h : s.endContour .CLOSE i = some s') :
    s'.contours.drop (i + 1) = s.contours.drop (i + 1) := by
  simp only [Shape.endContour] at h
  split at h
  · exact absurd h (by simp)
  · next ct hct =>
    have hi : i < s.contours.length := by
      rw [jsAt_coe] at hct
      rcases List.getElem?_eq_some_iff.mp hct with ⟨hlt, _⟩
      exact hlt
    split at h
    · exact absurd h (by simp)
    · split at h
      · exact absurd h (by simp)
      · split at h
        · -- PATH contour with positioned anchor
          split at h
          · exact absurd h (by simp)
          · -- self-handling: delegate to close()
            split at h
            · exact absurd h (by simp)
            · rw [Option.some_inj] at h
              rw [← h]
              exact drop_set_of_lt _ _ _ _ (by omega)
          · -- splice, closing vertex, splice back
            split at h
            · exact absurd h (by simp)
            · next s2 hvx =>
              rw [Option.some_inj] at h
              rw [← h]
              show (s2.contours ++ s.contours.drop (i + 1)).drop (i + 1) =
                s.contours.drop (i + 1)
              have hlen : s2.contours.length = i + 1 := by
                have hv := vertex_length hvx
                simp only [List.length_take] at hv
                omega
              rw [← hlen, List.drop_left]
        · rw [Option.some_inj] at h
          rw [← h]

theorem handlesClose_spline {p : ShapePrimitive} {s : Shape}
    (h : p.handlesClose s = some true) : p.kind = .splineSegment := by
  cases hk : p.kind
  case splineSegment => rfl
  all_goals unfold ShapePrimitive.handlesClose at h
  all_goals rw [hk] at h
  all_goals simp at h

theorem close_of_handlesClose {p : ShapePrimitive} {s : Shape}
    (h : p.handlesClose s = some true) :
    p.close = some { p with splineProperties := { p.splineProperties with ends := .JOIN } } := by
  have hk := handlesClose_spline h
  unfold ShapePrimitive.close
  simp only [hk]

-- ====================================================================
-- CLAIM C2
-- ====================================================================

/-- Claim C2, as stated, is false: with `tightness = 1` the generated
Bezier control triple for the window `(a,b,c,d) = ([0],[1],[2],[3])` is
`([1],[2],[2])`, not `([2],[2],[2])`; the first control point of the
triple is `b`, not `c`. -/
theorem spec_C2_counterexample :
    catmullRomToBezier [[0], [1], [2], [3]] 1 ≠ [[[(2 : ℚ)], [2], [2]]] := by
  have h : catmullRomToBezier [[0], [1], [2], [3]] 1 = [[[1], [2], [2]]] := by
    norm_num [catmullRomToBezier, arraySum, arrayMinus, arrayScale, mapWithIndex,
      List.range_succ]
  rw [h]
  intro hcon
  have := List.head_eq_of_cons_eq hcon
  simp at this

/-- Claim C2 (amended): for every window `(a,b,c,d)` of four consecutive
control points of equal arity, `catmullRomToBezier` with `tightness = 1`
(so `s = 0`) emits the Bezier control triple `(b, c, c)` — still a
degenerate straight segment between the anchor points `b` and `c`, but
with first control point `b` rather than `c`. -/
theorem spec_C2 (vs : List (List ℚ)) (i : ℕ) (a b c d : List ℚ)
    (ha : vs[i]? = some a) (hb : vs[i + 1]? = some b)
    (hc : vs[i + 2]? = some c) (hd : vs[i + 3]? = some d)
    (_hab : a.length = b.length) (_hcb : c.length = b.length)
    (_hdb : d.length = b.length) :
    (catmullRomToBezier vs 1)[i]? = some [b, c, c] := by
  have hilt : i + 3 < vs.length := by
    rcases List.getElem?_eq_some_iff.mp hd with ⟨h, _⟩
    exact h
  have hrange : i < vs.length - 3 := by omega
  unfold catmullRomToBezier
  rw [List.getElem?_map, List.getElem?_range hrange]
  simp only [Option.map_some']
  have hgetD : ∀ (j : ℕ) (x : List ℚ), vs[j]? = some x → vs.getD j [] = x := by
    intro j x hx
    rw [List.getD_eq_getD_get?, List.get?_eq_getElem?, hx]
    rfl
  rw [hgetD i a ha, hgetD (i + 1) b hb, hgetD (i + 2) c hc, hgetD (i + 3) d hd]
  have hzero : ∀ (u w : List ℚ), arrayScale (arrayMinus u w) ((1 - 1) / 6) =
      List.map (fun v => v * 0) (arrayMinus u w) := by
    intro u w
    norm_num [arrayScale]
  have hall : ∀ (u w : List ℚ) (x : ℚ),
      x ∈ List.map (fun v => v * 0) (arrayMinus u w) → x = 0 := by
    intro u w x hx
    rcases List.mem_map.mp hx with ⟨y, _, rfl⟩
    ring
  rw [hzero c a, hzero b d,
    arraySum_zero b _ (hall c a), arraySum_zero c _ (hall b d)]

/-- Witness instantiating `spec_C2` on the concrete window
`([0],[1],[2],[3])`. -/
theorem spec_C2_witness :
    (catmullRomToBezier [[0], [1], [2], [3]] 1)[0]? = some [[(1 : ℚ)], [2], [2]] :=
  spec_C2 [[0], [1], [2], [3]] 0 [0] [1] [2] [3]
    (by decide) (by decide) (by decide) (by decide) rfl rfl rfl

-- ====================================================================
-- CLAIM C3
-- ====================================================================

/-- Claim C3: evaluation of `serializeToArray`/`hydrateValue` on each
shape of input.  The null/array/array-conversion branches and the final
`TypeMismatch` throw behave as claimed, but the bare-number branches do
not: a primitive number is not `instanceof Number`, so `serializeToArray`
throws on a bare number instead of returning a 1-element array, and
`hydrateValue` on a bare-number template falls through every branch and
silently returns `undefined` (consuming nothing) instead of failing with a
`TypeMismatch` error. -/
theorem spec_C3 :
    serializeToArray .null = .ok []
    ∧ serializeToArray (.arr [1, 2]) = .ok [1, 2]
    ∧ serializeToArray (.vec 1 2 3) = .ok [1, 2, 3]
    ∧ serializeToArray (.color 1 2 3 4) = .ok [1, 2, 3, 4]
    ∧ serializeToArray (.num 5) = .error "TypeMismatch: cannot convert value to array"
    ∧ hydrateValue [7] (.num 5) = some (.undefined, [7]) := by
  refine ⟨rfl, rfl, rfl, rfl, rfl, rfl⟩

-- ====================================================================
-- CLAIM C1
-- ====================================================================

/-- Claim C1: the serialization round-trip breaks on a vertex whose
attribute is a bare number.  With the template `{a: 5}` and the vertex
`{a: 5}`, `vertexToArray` throws (a primitive number is not
`instanceof Number`), and even hydrating the would-be array `[5]` yields
`{a: undefined}` rather than the original vertex, so the round-trip is not
the identity on bare-number attributes. -/
theorem spec_C1 :
    numTemplateShape.vertexToArray numVertex =
      .error "TypeMismatch: cannot convert value to array"
    ∧ numTemplateShape.arrayToVertex [5] = some [("a", .undefined)]
    ∧ some numVertex ≠ numTemplateShape.arrayToVertex [5] := by
  refine ⟨rfl, rfl, by decide⟩

-- ====================================================================
-- CLAIM C4
-- ====================================================================

/-- Claim C4: when `addToShape` merges the new primitive `p` into the
contour's last primitive `lp` (same variant, positive spare capacity), the
contour's total vertex count grows by exactly `p`'s vertex count (no vertex
is lost or duplicated by the merge), the moved vertices number at most
`lp`'s spare capacity, any leftover vertices are attached as exactly one
new primitive holding exactly those vertices, and when nothing is left
over no new primitive is attached. -/
theorem spec_C4 (shape : Shape) (p : ShapePrimitive) (lc : Contour)
    (lp : ShapePrimitive)
    (hlc : jsAt shape.contours (-1) = some lc)
    (hlp : jsAt lc.primitives (-1) = some lp)
    (hty : lp.kind = p.kind)
    (hsp : sparePos (spareCapacity lp) = true) :
    ∃ (s' : Shape) (b : Bool) (lc' : Contour),
      p.addToShape shape = some (s', b)
      ∧ jsAt s'.contours (-1) = some lc'
      ∧ lc'.totalVertexCount = lc.totalVertexCount + p.vertexCount
      ∧ (∀ cap, lp.vertexCapacity = some cap →
          (takeSpare p.vertices (spareCapacity lp)).length ≤ cap - lp.vertexCount)
      ∧ (dropSpare p.vertices (spareCapacity lp) ≠ [] →
          lc'.primitives.length = lc.primitives.length + 1
          ∧ ∃ q, lc'.primitives.getLast? = some q
              ∧ q.kind = p.kind
              ∧ q.vertices = dropSpare p.vertices (spareCapacity lp))
      ∧ (dropSpare p.vertices (spareCapacity lp) = [] →
          lc'.primitives.length = lc.primitives.length ∧ b = false) := by
  obtain ⟨cs, hcs⟩ := exists_concat_of_jsAt_neg_one hlc
  obtain ⟨ps, hps⟩ := exists_concat_of_jsAt_neg_one hlp
  have hne : lc.primitives.isEmpty = false := by
    rw [hps]
    simp
  have hbeq : (lp.kind == p.kind) = true := by
    rw [hty]
    simp
  unfold ShapePrimitive.addToShape
  simp only [hlc, hlp, hne, hbeq, hsp, Bool.false_eq_true, if_false, Bool.true_and,
    if_true]
  set spare := spareCapacity lp with hspare
  set pushable := takeSpare p.vertices spare with hpush
  set remaining := dropSpare p.vertices spare with hrem
  have hlen : pushable.length + remaining.length = p.vertices.length :=
    length_takeSpare_add_length_dropSpare p.vertices spare
  have hcap : ∀ cap, lp.vertexCapacity = some cap →
      pushable.length ≤ cap - lp.vertexCount := by
    intro cap hc
    rw [hpush, hspare]
    unfold spareCapacity
    rw [hc]
    simp only [Option.map_some', takeSpare]
    exact (List.length_take _ _).trans_le (min_le_left _ _)
  by_cases hr : remaining.isEmpty
  · -- full merge: the new primitive is discarded
    have hrnil : remaining = [] := by simpa using hr
    have h0 : remaining.length = 0 := by
      rw [hrnil]
      rfl
    rw [if_pos hr]
    refine ⟨_, false,
      { kindRaw := lc.kindRaw,
        primitives := updateLast lc.primitives
          (fun _ => { lp with vertices := lp.vertices ++ pushable }) },
      rfl, ?_, ?_, hcap, ?_, ?_⟩
    · simp only [hcs, updateLast_concat, jsAt_neg_one, List.getLast?_concat]
    · unfold Contour.totalVertexCount ShapePrimitive.vertexCount
      rw [hps, updateLast_concat]
      simp only [List.map_append, List.sum_append, List.map_cons, List.map_nil,
        List.sum_cons, List.sum_nil, List.length_append]
      omega
    · intro hcon
      exact absurd hrnil hcon
    · intro _
      constructor
      · rw [hps, updateLast_concat]
        simp
      · rfl
  · -- partial merge: leftover attached as one new primitive
    have hrne : remaining ≠ [] := by simpa using hr
    rw [if_neg hr]
    refine ⟨_, true,
      { kindRaw := lc.kindRaw,
        primitives := updateLast lc.primitives
          (fun _ => { lp with vertices := lp.vertices ++ pushable })
          ++ [{ p with
                vertices := remaining
                location := some (shape.contours.length - 1, lc.primitives.length) }] },
      rfl, ?_, ?_, hcap, ?_, ?_⟩
    · simp only [hcs, updateLast_concat, jsAt_neg_one, List.getLast?_concat]
    · unfold Contour.totalVertexCount ShapePrimitive.vertexCount
      rw [hps, updateLast_concat]
      simp only [List.map_append, List.sum_append, List.map_cons, List.map_nil,
        List.sum_cons, List.sum_nil, List.length_append]
      omega
    · intro _
      constructor
      · rw [hps, updateLast_concat]
        simp
      · refine ⟨{ p with
          vertices := remaining
          location := some (shape.contours.length - 1, lc.primitives.length) },
          ?_, rfl, rfl⟩
        simp [List.getLast?_concat]
    · intro hcon
      exact absurd hcon hrne

/-- Witness instantiating `spec_C4` on a concrete merge: a two-vertex
spline merges entirely into a one-vertex spline at the end of a path
contour, conserving the contour's total vertex count. -/
theorem spec_C4_witness :
    w4p.addToShape w4shape = some (w4merged, false)
    ∧ w4lcMerged.totalVertexCount = w4lc.totalVertexCount + w4p.vertexCount := by
  obtain ⟨s', b, lc', h1, h2, h3, -, -, -⟩ :=
    spec_C4 w4shape w4p w4lc w4lp (by decide) (by decide) rfl rfl
  have he : w4p.addToShape w4shape = some (w4merged, false) := by decide
  refine ⟨he, ?_⟩
  rw [he] at h1
  injection h1 with h1'
  have h1s : w4merged = s' := congrArg Prod.fst h1'
  rw [← h1s] at h2
  have h2e : jsAt w4merged.contours (-1) = some w4lcMerged := by decide
  rw [h2e] at h2
  injection h2 with h2'
  rw [← h2'] at h3
  exact h3

-- ====================================================================
-- CLAIM C5
-- ====================================================================

/-- Claim C5: on a `PATH` contour whose primitives are exactly one anchor
(with a positioned vertex) followed by exactly one spline segment,
`endContour(CLOSE, i)` delegates to the spline: the segment's end-mode
becomes `JOIN` and nothing else changes — in particular no vertex is
appended anywhere (the resulting shape differs from the original only in
that one end-mode field).  Moreover `handlesClose()` reports `true` for
this spline, and in general a spline reports `true` exactly when the
contour at its stored location has exactly two primitives of which it is
the second (the sole segment after the anchor). -/
theorem spec_C5 (s : Shape) (i : ℕ) (ct : Contour) (a sp : ShapePrimitive)
    (va : Vertex)
    (hct : s.contours.get? i = some ct)
    (hkraw : ct.kindRaw = .PATH)
    (hprims : ct.primitives = [a, sp])
    (_hak : a.kind = .anchor)
    (hav : a.vertices = [va])
    (hpos : jsHas va "position" = true)
    (hspk : sp.kind = .splineSegment)
    (hloc : sp.location = some (i, 1)) :
    s.endContour .CLOSE i =
      some { s with
        contours := s.contours.set i
          { ct with
            primitives :=
              [a,
               { sp with
                 splineProperties := { sp.splineProperties with ends := .JOIN } }] } }
    ∧ sp.handlesClose s = some true
    ∧ (∀ (s2 : Shape) (q : ShapePrimitive) (ci pi : ℕ) (ct2 : Contour),
        q.kind = .splineSegment → q.location = some (ci, pi) →
        s2.contours.get? ci = some ct2 →
        (q.handlesClose s2 = some true ↔ ct2.primitives.length = 2 ∧ pi = 1)) := by
  have hjs : jsAt s.contours (i : ℤ) = some ct := by
    rw [jsAt_natCast]
    exact hct
  have hhc : sp.handlesClose s = some true := by
    unfold ShapePrimitive.handlesClose
    simp only [hspk, hloc, hjs, hprims]
    rfl
  refine ⟨?_, hhc, ?_⟩
  · have hv : s.atVertex i 0 0 = some va := by
      unfold Shape.atVertex Shape.atPrimitive Shape.atContour
      rw [hjs]
      simp [hprims, hav, jsAt]
    have hlast : s.atPrimitive i (-1) = some sp := by
      unfold Shape.atPrimitive Shape.atContour
      rw [hjs]
      simp [hprims, jsAt_neg_one]
    have hkind : ct.kind = .PATH := by
      unfold Contour.kind
      rw [hprims, hkraw]
      rfl
    have hclose : sp.close = some
        { sp with splineProperties := { sp.splineProperties with ends := .JOIN } } := by
      unfold ShapePrimitive.close
      simp only [hspk]
    unfold Shape.endContour
    simp only [hjs, hv, hlast, hkind, hpos, hhc, hclose, beq_self_eq_true,
      Bool.and_self, if_true, hprims]
    rfl
  · intro s2 q ci pi ct2 hqk hqloc hct2
    have hjs2 : jsAt s2.contours (ci : ℤ) = some ct2 := by
      rw [jsAt_natCast]
      exact hct2
    unfold ShapePrimitive.handlesClose
    simp only [hqk, hqloc, hjs2, Option.some_inj, Bool.and_eq_true, beq_iff_eq,
      Nat.beq_eq_true_eq]

/-- Witness instantiating `spec_C5` on a concrete shape: one path contour
holding an anchor and a spline segment; closing switches the spline's
end-mode to `JOIN` and appends nothing. -/
theorem spec_C5_witness :
    w4shape.endContour .CLOSE 0 =
      some { w4shape with
        contours := w4shape.contours.set 0
          { w4lc with
            primitives :=
              [w4anchor,
               { w4lp with
                 splineProperties := { w4lp.splineProperties with ends := .JOIN } }] } }
    ∧ w4lp.handlesClose w4shape = some true := by
  have h := spec_C5 w4shape 0 w4lc w4anchor w4lp [("position", .vec 0 0 0)]
    (by decide) rfl rfl rfl rfl (by decide) rfl rfl
  exact ⟨h.1, h.2.1⟩

-- ====================================================================
-- CLAIM C7
-- ====================================================================

/-- Claim C7: `endContour(CLOSE, i)` on a `PATH` contour whose anchor
vertex has a `position` leaves the shape's vertex-property template equal
to its value before the call (the temporary patch is always undone,
including on the early self-handling-spline path), and the contours after
index `i` are restored to the same contours in the same order. -/
theorem spec_C7 (s : Shape) (i : ℕ) (ct : Contour) (p0 : ShapePrimitive)
    (va : Vertex)
    (hct : s.contours[i]? = some ct)
    (hkind : ct.kind = .PATH)
    (hp0 : ct.primitives[0]? = some p0)
    (hv0 : p0.vertices[0]? = some va)
    (hpos : jsHas va "position" = true)
    (hsafe : ∀ q, jsAt ct.primitives (-1) = some q →
      ∃ hb, q.handlesClose s = some hb) :
    ∃ s', s.endContour .CLOSE i = some s'
      ∧ s'.vertexProperties = s.vertexProperties
      ∧ s'.contours.drop (i + 1) = s.contours.drop (i + 1) := by
  have hjs : jsAt s.contours (i : ℤ) = some ct := by
    rw [jsAt_coe]
    exact hct
  have hi : i < s.contours.length := by
    rcases List.getElem?_eq_some_iff.mp hct with ⟨h, _⟩
    exact h
  have hv : s.atVertex i 0 0 = some va := by
    unfold Shape.atVertex Shape.atPrimitive Shape.atContour
    rw [hjs]
    simp only [Option.some_bind, jsAt_zero, hp0, hv0]
  have hctne : ct.primitives ≠ [] := by
    intro hcon
    rw [hcon] at hp0
    simp at hp0
  obtain ⟨lastSeg, hlast0⟩ := jsAt_neg_one_isSome hctne
  have hlast : s.atPrimitive i (-1) = some lastSeg := by
    unfold Shape.atPrimitive Shape.atContour
    rw [hjs]
    simp only [Option.some_bind, hlast0]
  obtain ⟨hb, hhc⟩ := hsafe lastSeg hlast0
  unfold Shape.endContour
  simp only [hjs, hv, hlast, hkind, hpos, beq_self_eq_true, Bool.and_self, if_true,
    hhc]
  cases hb
  · -- not self-handling: splice, emit the closing vertex, restore
    have hlc1 : jsAt (s.contours.take (i + 1)) (-1) = some ct := by
      rw [jsAt_neg_one]
      apply getLast?_take
      rw [List.get?_eq_getElem?]
      exact hct
    have hpk : primitiveShapeCreatorsGet .vertex ct.kind = some .lineSegment := by
      rw [hkind]
      rfl
    obtain ⟨s2, hs2, hlen2⟩ :=
      @vertex_some
        { s with
          contours := s.contours.take (i + 1)
          vertexProperties := patchTemplate s.vertexProperties va }
        (jsGet va "position") (jsGet va "textureCoordinates") true ct
        (by simpa using hlc1) .lineSegment hpk
    simp only [hs2]
    refine ⟨_, rfl, rfl, ?_⟩
    have hlen : s2.contours.length = i + 1 := by
      rw [hlen2]
      simp only [List.length_take]
      omega
    show (s2.contours ++ s.contours.drop (i + 1)).drop (i + 1) = s.contours.drop (i + 1)
    rw [← hlen, List.drop_left]
  · -- self-handling spline: delegate to `close()`
    rw [close_of_handlesClose hhc]
    refine ⟨_, rfl, rfl, ?_⟩
    show (s.contours.set i _).drop (i + 1) = s.contours.drop (i + 1)
    exact drop_set_of_lt _ _ _ _ (by omega)

/-- Witness instantiating `spec_C7` on a concrete path `[anchor, line]`
closed at index 0: the template is restored and the (here empty) trailing
contours are unchanged. -/
theorem spec_C7_witness :
    w7shape.endContour .CLOSE 0 = some w7closed
    ∧ w7closed.vertexProperties = w7shape.vertexProperties
    ∧ w7closed.contours.drop 1 = w7shape.contours.drop 1 := by
  have hsafe : ∀ q, jsAt w7lc.primitives (-1) = some q →
      ∃ hb, q.handlesClose w7shape = some hb := by
    intro q hq
    have he : jsAt w7lc.primitives (-1) = some w7line := by decide
    rw [he] at hq
    injection hq with hq'
    refine ⟨false, ?_⟩
    rw [← hq']
    decide
  obtain ⟨s', h1, h2, h3⟩ := spec_C7 w7shape 0 w7lc w4anchor
    [("position", .vec 0 0 0)] (by decide) (by decide) (by decide) (by decide)
    (by decide) hsafe
  have he : w7shape.endContour .CLOSE 0 = some w7closed := by decide
  rw [he] at h1
  injection h1 with h1'
  subst h1'
  exact ⟨he, h2, h3⟩

-- ====================================================================
-- CLAIM C8
-- ====================================================================

/-- Claim C8: `endShape(CLOSE)` closes only contour index 0 — it is
definitionally the same call as `endContour(CLOSE, 0)`, every contour
other than contour 0 is left unchanged by it, and `endShape(OPEN)` changes
nothing. -/
theorem spec_C8 (s : Shape) :
    s.endShape .CLOSE = s.endContour .CLOSE 0
    ∧ s.endShape .OPEN = some s
    ∧ (∀ s', s.endShape .CLOSE = some s' →
        s'.contours.drop 1 = s.contours.drop 1) := by
  refine ⟨rfl, rfl, ?_⟩
  intro s' h
  exact endContour_drop h

/-- Witness instantiating `spec_C8` on the concrete shape `w7shape`. -/
theorem spec_C8_witness :
    (w7shape.endShape .CLOSE = w7shape.endContour .CLOSE 0)
    ∧ (w7shape.endShape .OPEN = some w7shape)
    ∧ w7closed.contours.drop 1 = w7shape.contours.drop 1 := by
  obtain ⟨h1, h2, h3⟩ := spec_C8 w7shape
  exact ⟨h1, h2, h3 w7closed (by decide)⟩

-- ====================================================================
-- CLAIM C9
-- ====================================================================

theorem jsGet_of_not_has {v : JSObj} {k : String} (h : jsHas v k = false) :
    jsGet v k = .undefined := by
  unfold jsGet
  have hf : v.find? (fun p => p.1 == k) = none := by
    rw [List.find?_eq_none]
    intro x hx
    intro hcon
    have : jsHas v k = true := List.any_eq_true.mpr ⟨x, hx, hcon⟩
    rw [h] at this
    exact absurd this (by simp)
  rw [hf]

theorem jsGet_cons_self (o : JSObj) (k : String) (x : JSVal) :
    jsGet ((k, x) :: o) k = x := by
  unfold jsGet
  rw [List.find?_cons_of_pos _ (by simp)]

theorem jsGet_cons_of_ne {k0 k : String} (h : k0 ≠ k) (o : JSObj) (x : JSVal) :
    jsGet ((k0, x) :: o) k = jsGet o k := by
  unfold jsGet
  rw [List.find?_cons_of_neg _ (by simpa using h)]

theorem jsGet_append_left {v w : JSObj} {k : String} (h : jsHas v k = true) :
    jsGet (v ++ w) k = jsGet v k := by
  unfold jsGet
  rw [List.find?_append]
  rcases hf : v.find? (fun p => p.1 == k) with _ | p
  · obtain ⟨x, hx, hxk⟩ := List.any_eq_true.mp h
    have := List.find?_eq_none.mp hf x hx
    rw [hxk] at this
    exact absurd rfl this
  · rw [hf]
    rfl

theorem jsGet_append_right {v w : JSObj} {k : String} (h : jsHas v k = false) :
    jsGet (v ++ w) k = jsGet w k := by
  unfold jsGet
  rw [List.find?_append]
  have hf : v.find? (fun p => p.1 == k) = none := by
    rw [List.find?_eq_none]
    intro x hx hcon
    have : jsHas v k = true := List.any_eq_true.mpr ⟨x, hx, hcon⟩
    rw [h] at this
    exact absurd this (by simp)
  rw [hf]
  rfl

theorem jsHas_append (v w : JSObj) (k : String) :
    jsHas (v ++ w) k = (jsHas v k || jsHas w k) := by
  simp [jsHas, List.any_append]

/-- The filled-in entries carry only user keys. -/
theorem jsGet_extra_of_not_user {u : List (String × ℕ)} {vertex : Vertex}
    {k : String} (hk : jsHasN u k = false) :
    jsGet ((u.filter (fun kn => ! jsHas vertex kn.1)).map
      (fun kn => (kn.1, JSVal.arr (List.replicate kn.2 0)))) k = .undefined := by
  apply jsGet_of_not_has
  unfold jsHas
  rw [List.any_eq_false]
  intro x hx
  rcases List.mem_map.mp hx with ⟨kn, hkn, rfl⟩
  have hknu : kn ∈ u := List.mem_of_mem_filter hkn
  intro hcon
  have : jsHasN u k = true := List.any_eq_true.mpr ⟨kn, hknu, hcon⟩
  rw [hk] at this
  exact absurd this (by simp)

theorem jsHas_extra_user {u : List (String × ℕ)} {vertex : Vertex} {k : String}
    {n : ℕ} (hmem : (k, n) ∈ u) (habs : jsHas vertex k = false) :
    jsHas ((u.filter (fun kn => ! jsHas vertex kn.1)).map
      (fun kn => (kn.1, JSVal.arr (List.replicate kn.2 0)))) k = true := by
  unfold jsHas
  rw [List.any_eq_true]
  refine ⟨(k, JSVal.arr (List.replicate n 0)), ?_, by simp⟩
  apply List.mem_map.mpr
  refine ⟨(k, n), ?_, rfl⟩
  apply List.mem_filter.mpr
  refine ⟨hmem, ?_⟩
  show (! jsHas vertex k) = true
  rw [habs]
  rfl

theorem jsGet_extra_user {u : List (String × ℕ)} {vertex : Vertex} {k : String}
    {n : ℕ} (hnodup : (u.map Prod.fst).Nodup) (hmem : (k, n) ∈ u)
    (habs : jsHas vertex k = false) :
    jsGet ((u.filter (fun kn => ! jsHas vertex kn.1)).map
      (fun kn => (kn.1, JSVal.arr (List.replicate kn.2 0)))) k =
      .arr (List.replicate n 0) := by
  induction u with
  | nil => exact absurd hmem (by simp)
  | cons kn0 rest ih =>
    rcases List.mem_cons.mp hmem with heq | hrest
    · subst heq
      simp only [List.filter_cons, habs, Bool.not_false, if_true, List.map_cons]
      exact jsGet_cons_self _ _ _
    · have hk0 : kn0.1 ≠ k := by
        have h1 : k ∈ rest.map Prod.fst :=
          List.mem_map.mpr ⟨(k, n), hrest, rfl⟩
        have h2 := (List.nodup_cons.mp hnodup).1
        intro hcon
        rw [hcon] at h2
        exact h2 h1
      have hrec := ih (List.nodup_cons.mp hnodup).2 hrest
      simp only [List.filter_cons]
      by_cases hf : jsHas vertex kn0.1 = false
      · simp only [hf, Bool.not_false, if_true, List.map_cons]
        rcases kn0 with ⟨k0, n0⟩
        rw [jsGet_cons_of_ne hk0]
        exact hrec
      · have hf' : jsHas vertex kn0.1 = true := by
          cases hx : jsHas vertex kn0.1
          · exact absurd hx hf
          · rfl
        simp only [hf', Bool.not_true, Bool.false_eq_true, if_false]
        exact hrec

theorem serializeTemplateKeys_ok {u : List (String × ℕ)} {vertex : Vertex}
    {keys : List (String × JSVal)}
    (h : ∀ kv ∈ keys, jsHasN u kv.1 = false →
      ∃ l, serializeToArray (jsGet vertex kv.1) = .ok l
        ∧ l.length = serializedLength kv.2) :
    ∃ a, serializeTemplateKeys u vertex keys = .ok a
      ∧ a.length = ((keys.filter (fun kv => ! jsHasN u kv.1)).map
          (fun kv => serializedLength kv.2)).sum := by
  induction keys with
  | nil => exact ⟨[], rfl, rfl⟩
  | cons kv rest ih =>
    obtain ⟨r, hr, hrlen⟩ := ih (fun x hx => h x (List.mem_cons_of_mem _ hx))
    unfold serializeTemplateKeys
    cases hu : jsHasN u kv.1
    · obtain ⟨l, hl, hllen⟩ := h kv (List.mem_cons_self _ _) hu
      simp only [hu, Bool.false_eq_true, if_false, hl, hr,
        List.filter_cons, Bool.not_false, if_true, List.map_cons, List.sum_cons]
      exact ⟨l ++ r, rfl, by rw [List.length_append, hllen, hrlen]⟩
    · simp only [hu, if_true, List.filter_cons, Bool.not_true, Bool.false_eq_true,
        if_false]
      exact ⟨r, hr, hrlen⟩

theorem serializeUserKeys_ok {vertex : Vertex} {u : List (String × ℕ)}
    (h : ∀ kn ∈ u, jsHas vertex kn.1 = true →
      ∃ l, serializeToArray (jsGet vertex kn.1) = .ok l ∧ l.length = kn.2) :
    ∃ b, serializeUserKeys vertex u = .ok b
      ∧ b.length = (u.map Prod.snd).sum := by
  induction u with
  | nil => exact ⟨[], rfl, rfl⟩
  | cons kn rest ih =>
    obtain ⟨r, hr, hrlen⟩ := ih (fun x hx => h x (List.mem_cons_of_mem _ hx))
    unfold serializeUserKeys
    cases hv : jsHas vertex kn.1
    · simp only [hv, Bool.false_eq_true, if_false, hr,
        List.map_cons, List.sum_cons]
      exact ⟨List.replicate kn.2 0 ++ r, rfl,
        by rw [List.length_append, List.length_replicate, hrlen]⟩
    · obtain ⟨l, hl, hllen⟩ := h kn (List.mem_cons_self _ _) hv
      simp only [hv, if_true, hl, hr, List.map_cons,
        List.sum_cons]
      exact ⟨l ++ r, rfl, by rw [List.length_append, hllen, hrlen]⟩

theorem serializeTemplateKeys_fillAbsent (s : Shape) (vertex : Vertex)
    (keys : List (String × JSVal)) :
    serializeTemplateKeys s.userVertexProperties (s.fillAbsentUserKeys vertex) keys
      = serializeTemplateKeys s.userVertexProperties vertex keys := by
  induction keys with
  | nil => rfl
  | cons kv rest ih =>
    unfold serializeTemplateKeys
    cases hu : jsHasN s.userVertexProperties kv.1
    · have hget : jsGet (s.fillAbsentUserKeys vertex) kv.1 = jsGet vertex kv.1 := by
        unfold Shape.fillAbsentUserKeys
        cases hv : jsHas vertex kv.1
        · rw [jsGet_append_right hv, jsGet_extra_of_not_user hu,
            jsGet_of_not_has hv]
        · exact jsGet_append_left hv
      simp only [hu, Bool.false_eq_true, if_false, hget, ih]
    · simp only [hu, if_true]
      exact ih

theorem serializeUserKeys_fillAbsent (s : Shape) (vertex : Vertex)
    (hnodup : (s.userVertexProperties.map Prod.fst).Nodup)
    (l : List (String × ℕ)) (hsub : ∀ x ∈ l, x ∈ s.userVertexProperties) :
    serializeUserKeys (s.fillAbsentUserKeys vertex) l
      = serializeUserKeys vertex l := by
  induction l with
  | nil => rfl
  | cons kn rest ih =>
    have hmem : kn ∈ s.userVertexProperties := hsub kn (List.mem_cons_self _ _)
    have ihr := ih (fun x hx => hsub x (List.mem_cons_of_mem _ hx))
    unfold serializeUserKeys
    cases hv : jsHas vertex kn.1
    · have h1 : jsHas (s.fillAbsentUserKeys vertex) kn.1 = true := by
        unfold Shape.fillAbsentUserKeys
        rw [jsHas_append, hv, Bool.false_or]
        exact jsHas_extra_user hmem hv
      have h2 : jsGet (s.fillAbsentUserKeys vertex) kn.1 =
          .arr (List.replicate kn.2 0) := by
        unfold Shape.fillAbsentUserKeys
        rw [jsGet_append_right hv]
        exact jsGet_extra_user hnodup hmem hv
      simp only [h1, if_true, h2, hv, Bool.false_eq_true, if_false, ihr]
      cases hs : serializeUserKeys vertex rest
      · rfl
      · rfl
    · have h1 : jsHas (s.fillAbsentUserKeys vertex) kn.1 = true := by
        unfold Shape.fillAbsentUserKeys
        rw [jsHas_append, hv]
        rfl
      have h2 : jsGet (s.fillAbsentUserKeys vertex) kn.1 = jsGet vertex kn.1 := by
        unfold Shape.fillAbsentUserKeys
        exact jsGet_append_left hv
      simp only [h1, if_true, h2, hv, ihr]

/-- Claim C9: for every registered user attribute absent from the vertex,
`vertexToArray` emits that attribute's registered arity of zeros in the
attribute's position — filling the absent attributes with explicit zero
arrays does not change the output — and the output array always has the
full length determined by the template. -/
theorem spec_C9 (s : Shape) (vertex : Vertex)
    (hnodup : (s.userVertexProperties.map Prod.fst).Nodup)
    (htmpl : ∀ kv ∈ s.vertexProperties, jsHasN s.userVertexProperties kv.1 = false →
      ∃ l, serializeToArray (jsGet vertex kv.1) = .ok l
        ∧ l.length = serializedLength kv.2)
    (huser : ∀ kn ∈ s.userVertexProperties, jsHas vertex kn.1 = true →
      ∃ l, serializeToArray (jsGet vertex kn.1) = .ok l ∧ l.length = kn.2) :
    ∃ out, s.vertexToArray vertex = .ok out
      ∧ out.length = s.templateFullLength
      ∧ s.vertexToArray vertex = s.vertexToArray (s.fillAbsentUserKeys vertex) := by
  obtain ⟨a, ha, halen⟩ := serializeTemplateKeys_ok htmpl
  obtain ⟨b, hb, hblen⟩ := serializeUserKeys_ok huser
  refine ⟨a ++ b, ?_, ?_, ?_⟩
  · unfold Shape.vertexToArray
    rw [ha, hb]
    rfl
  · rw [List.length_append, halen, hblen]
    rfl
  · unfold Shape.vertexToArray
    rw [serializeTemplateKeys_fillAbsent,
      serializeUserKeys_fillAbsent s vertex hnodup _ (fun x hx => hx)]

/-- Witness instantiating `spec_C9`: a template with a position and one
registered 3-component user attribute, applied to a vertex carrying only
the position; the output is the position followed by three zeros. -/
theorem spec_C9_witness :
    ∃ out, w9shape.vertexToArray w9vertex = .ok out
      ∧ out.length = w9shape.templateFullLength
      ∧ w9shape.vertexToArray w9vertex =
          w9shape.vertexToArray (w9shape.fillAbsentUserKeys w9vertex) := by
  apply spec_C9
  · decide
  · intro kv hkv hu
    have hcase : kv = ("position", JSVal.vec 0 0 0)
        ∨ kv = ("aSrc", JSVal.arr [1, 2, 3]) := by
      simpa [w9shape, Shape.mk0] using hkv
    rcases hcase with rfl | rfl
    · exact ⟨[5, 6, 7], rfl, rfl⟩
    · exact absurd hu (by decide)
  · intro kn hkn hv
    have hcase : kn = ("aSrc", 3) := by
      simpa [w9shape, Shape.mk0] using hkn
    subst hcase
    exact absurd hv (by decide)


-- ====================================================================
-- CLAIMS C6 AND C10: THE BUILD INVARIANT
-- ====================================================================

theorem updateLast_singleton {α : Type} (a : α) (f : α → α) :
    updateLast [a] f = [f a] := rfl

theorem mem_updateLast {α : Type} {l : List α} {f : α → α} {x : α}
    (h : x ∈ updateLast l f) : x ∈ l ∨ ∃ b ∈ l, x = f b := by
  induction l with
  | nil => exact absurd h (by simp [updateLast])
  | cons a rest ih =>
    cases rest with
    | nil =>
      rw [updateLast_singleton, List.mem_singleton] at h
      exact Or.inr ⟨a, List.mem_singleton_self a, h⟩
    | cons b t =>
      rw [show updateLast (a :: b :: t) f = a :: updateLast (b :: t) f from rfl,
        List.mem_cons] at h
      rcases h with rfl | h
      · exact Or.inl (List.mem_cons_self _ _)
      · rcases ih h with hmem | ⟨c, hc, rfl⟩
        · exact Or.inl (List.mem_cons_of_mem _ hmem)
        · exact Or.inr ⟨c, List.mem_cons_of_mem _ hc, rfl⟩

theorem length_dropSpare_le {α : Type} (vs : List α) (o : Option ℕ) :
    (dropSpare vs o).length ≤ vs.length := by
  cases o with
  | none => simp [dropSpare]
  | some k => simp [dropSpare]

/-- Changing only the stored location does not affect the capacity
invariant. -/
theorem primOK_relocate {p : ShapePrimitive} (loc : Option (ℕ × ℕ))
    (h : primOK p) : primOK { p with location := loc } :=
  fun cap hcap => h cap hcap

/-- Shrinking the vertex list preserves the capacity invariant. -/
theorem primOK_shrink {p : ShapePrimitive} {vs : List Vertex}
    (loc : Option (ℕ × ℕ)) (hle : vs.length ≤ p.vertices.length)
    (h : primOK p) :
    primOK { p with
      vertices := vs
      location := loc } := by
  intro cap hcap
  have h2 := h cap hcap
  unfold ShapePrimitive.vertexCount at h2 ⊢
  show vs.length ≤ cap
  omega

/-- The merge target stays within its capacity: the moved vertices number
at most the spare capacity. -/
theorem primOK_merge {lp : ShapePrimitive} (vs : List Vertex) (h : primOK lp) :
    primOK { lp with vertices := lp.vertices ++ takeSpare vs (spareCapacity lp) } := by
  intro cap hcap
  have hlpcap : lp.vertexCapacity = some cap := hcap
  have hsp : spareCapacity lp = some (cap - lp.vertexCount) := by
    unfold spareCapacity
    rw [hlpcap, Option.map_some']
  have hcount := h cap hlpcap
  unfold ShapePrimitive.vertexCount at hcount ⊢
  show (lp.vertices ++ takeSpare vs (spareCapacity lp)).length ≤ cap
  rw [hsp]
  unfold ShapePrimitive.vertexCount
  simp only [takeSpare, List.length_append, List.length_take]
  omega

/-- An anchor holding its one vertex has no spare capacity, so it is never
a merge target. -/
theorem not_sparePos_anchor {p : ShapePrimitive} (hk : p.kind = .anchor)
    (hv : p.vertices.length = 1) : sparePos (spareCapacity p) = false := by
  have hcap : p.vertexCapacity = some 1 := by
    unfold ShapePrimitive.vertexCapacity
    rw [hk]
  have hsp : spareCapacity p = some 0 := by
    unfold spareCapacity ShapePrimitive.vertexCount
    rw [hcap, Option.map_some', hv]
  rw [hsp]
  rfl

theorem contoursInv_append {l1 l2 : List Contour} (h1 : contoursInv l1)
    (h2 : contoursInv l2) : contoursInv (l1 ++ l2) := by
  intro c hc
  rcases List.mem_append.mp hc with h | h
  · exact h1 c h
  · exact h2 c h

theorem contoursInv_sublist {l1 l2 : List Contour} (hs : l1 ⊆ l2)
    (h : contoursInv l2) : contoursInv l1 :=
  fun c hc => h c (hs hc)

/-- The base `addToShape` preserves the contour invariants, provided the
new primitive respects its own capacity, is non-empty, and is an anchor
with a single vertex whenever it goes into an empty raw-`PATH` contour. -/
theorem addToShape_inv {self : ShapePrimitive} {shape s' : Shape} {b : Bool}
    (hInv : contoursInv shape.contours)
    (hpOK : primOK self) (hp1 : 1 ≤ self.vertexCount)
    (hanchor : ∀ lc, jsAt shape.contours (-1) = some lc → lc.kindRaw = .PATH →
      lc.primitives = [] → self.kind = .anchor ∧ self.vertices.length = 1)
    (h : self.addToShape shape = some (s', b)) :
    contoursInv s'.contours ∧ s'.bezierOrderNum = shape.bezierOrderNum := by
  unfold ShapePrimitive.addToShape at h
  rcases hjs : jsAt shape.contours (-1) with _ | lc
  · simp [hjs] at h
  · simp only [hjs] at h
    obtain ⟨cs, hcs⟩ := exists_concat_of_jsAt_neg_one hjs
    have hlcmem : lc ∈ shape.contours := by
      rw [hcs]
      simp
    have hlcInv := hInv lc hlcmem
    have hcsInv : contoursInv cs := by
      apply contoursInv_sublist _ hInv
      rw [hcs]
      exact List.subset_append_left _ _
    have hfin : ∀ (F : List ShapePrimitive → List ShapePrimitive),
        (∀ p ∈ F lc.primitives, primOK p ∧ 1 ≤ p.vertexCount) →
        (lc.kindRaw = .PATH → F lc.primitives ≠ [] →
          ∃ p rest, F lc.primitives = p :: rest
            ∧ p.kind = .anchor ∧ p.vertices.length = 1) →
        contoursInv (updateLast shape.contours
          (fun c => { c with primitives := F c.primitives })) := by
      intro F h1 h2 c hc
      rw [hcs, updateLast_concat] at hc
      rcases List.mem_append.mp hc with hmem | hmem
      · exact hcsInv c hmem
      · rw [List.mem_singleton] at hmem
        subst hmem
        exact ⟨h1, h2⟩
    cases hemp : lc.primitives.isEmpty
    · -- the contour already has primitives
      simp only [hemp, Bool.false_eq_true, if_false] at h
      have hpne : lc.primitives ≠ [] := by
        intro hcon
        rw [hcon] at hemp
        exact absurd hemp (by simp)
      rcases hjp : jsAt lc.primitives (-1) with _ | lp
      · simp [hjp] at h
      · simp only [hjp] at h
        obtain ⟨ps, hps⟩ := exists_concat_of_jsAt_neg_one hjp
        have hlpmem : lp ∈ lc.primitives := by
          rw [hps]
          simp
        have hlpInv := hlcInv.1 lp hlpmem
        cases hcond : (lp.kind == self.kind && sparePos (spareCapacity lp))
        · -- different variant or no spare capacity: plain push
          simp only [hcond, Bool.false_eq_true, if_false] at h
          rw [Option.some_inj, Prod.mk.injEq] at h
          rw [← h.1]
          refine ⟨?_, rfl⟩
          refine hfin (fun prims => prims ++
            [{ self with location := some (shape.contours.length - 1,
                lc.primitives.length) }]) ?_ ?_
          · intro p hp
            rcases List.mem_append.mp hp with hmem | hmem
            · exact hlcInv.1 p hmem
            · rw [List.mem_singleton] at hmem
              subst hmem
              exact ⟨primOK_relocate _ hpOK, hp1⟩
          · intro hkraw _
            obtain ⟨p, rest, hpr, hpk, hpv⟩ := hlcInv.2 hkraw hpne
            exact ⟨p, rest ++ [_], by rw [hpr]; rfl, hpk, hpv⟩
        · -- merge branch: positive spare capacity on the same variant
          simp only [hcond, if_true] at h
          have hmergedOK : primOK { lp with
              vertices := lp.vertices ++ takeSpare self.vertices (spareCapacity lp) }
              ∧ 1 ≤ ShapePrimitive.vertexCount { lp with
                vertices := lp.vertices ++ takeSpare self.vertices (spareCapacity lp) } := by
            refine ⟨primOK_merge self.vertices hlpInv.1, ?_⟩
            have := hlpInv.2
            unfold ShapePrimitive.vertexCount at this ⊢
            show 1 ≤ (lp.vertices ++ takeSpare self.vertices (spareCapacity lp)).length
            rw [List.length_append]
            omega
          have hpathHead : lc.kindRaw = .PATH → ∃ p0 ps',
              ps = p0 :: ps' ∧ p0.kind = .anchor ∧ p0.vertices.length = 1 := by
            intro hkraw
            obtain ⟨p, rest, hpr, hpk, hpv⟩ := hlcInv.2 hkraw hpne
            cases ps with
            | nil =>
              rw [List.nil_append] at hps
              rw [hps] at hpr
              have hplp : p = lp := by
                injection hpr with h1 _
                exact h1.symm
              subst hplp
              rw [Bool.and_eq_true] at hcond
              rw [not_sparePos_anchor hpk hpv] at hcond
              exact absurd hcond.2 (by simp)
            | cons p0 ps' =>
              have hp0 : p = p0 := by
                rw [hps] at hpr
                injection hpr with h1 _
                exact h1.symm
              subst hp0
              exact ⟨p, ps', rfl, hpk, hpv⟩
          cases hrem : (dropSpare self.vertices (spareCapacity lp)).isEmpty
          · -- leftover vertices: the remainder attaches as one new primitive
            simp only [hrem, Bool.false_eq_true, if_false] at h
            rw [Option.some_inj, Prod.mk.injEq] at h
            rw [← h.1]
            refine ⟨?_, rfl⟩
            refine hfin (fun prims => updateLast prims
              (fun _ => { lp with
                vertices := lp.vertices ++ takeSpare self.vertices (spareCapacity lp) })
              ++ [{ self with
                vertices := dropSpare self.vertices (spareCapacity lp)
                location := some (shape.contours.length - 1, lc.primitives.length) }]) ?_ ?_
            · intro p hp
              rcases List.mem_append.mp hp with hmem | hmem
              · rcases mem_updateLast hmem with hold | ⟨q, _, rfl⟩
                · exact hlcInv.1 p hold
                · exact hmergedOK
              · rw [List.mem_singleton] at hmem
                subst hmem
                refine ⟨primOK_shrink _ (length_dropSpare_le _ _) hpOK, ?_⟩
                have hne : dropSpare self.vertices (spareCapacity lp) ≠ [] := by
                  intro hcon
                  rw [hcon] at hrem
                  exact absurd hrem (by simp)
                unfold ShapePrimitive.vertexCount
                show 1 ≤ (dropSpare self.vertices (spareCapacity lp)).length
                cases hx : dropSpare self.vertices (spareCapacity lp) with
                | nil => exact absurd hx hne
                | cons y ys => simp
            · intro hkraw _
              obtain ⟨p0, ps', hps0, hk0, hv0⟩ := hpathHead hkraw
              refine ⟨p0, ps' ++
                [{ lp with
                   vertices := lp.vertices ++ takeSpare self.vertices (spareCapacity lp) }] ++
                [{ self with
                   vertices := dropSpare self.vertices (spareCapacity lp)
                   location := some (shape.contours.length - 1, lc.primitives.length) }],
                ?_, hk0, hv0⟩
              show updateLast lc.primitives _ ++ _ = _
              rw [hps, updateLast_concat, hps0]
              simp
          · -- full merge: the new primitive is discarded
            simp only [hrem, if_true] at h
            rw [Option.some_inj, Prod.mk.injEq] at h
            rw [← h.1]
            refine ⟨?_, rfl⟩
            refine hfin (fun prims => updateLast prims
              (fun _ => { lp with
                vertices := lp.vertices ++ takeSpare self.vertices (spareCapacity lp) })) ?_ ?_
            · intro p hp
              rcases mem_updateLast hp with hold | ⟨q, _, rfl⟩
              · exact hlcInv.1 p hold
              · exact hmergedOK
            · intro hkraw _
              obtain ⟨p0, ps', hps0, hk0, hv0⟩ := hpathHead hkraw
              refine ⟨p0, ps' ++
                [{ lp with
                   vertices := lp.vertices ++ takeSpare self.vertices (spareCapacity lp) }],
                ?_, hk0, hv0⟩
              show updateLast lc.primitives _ = _
              rw [hps, updateLast_concat, hps0]
              simp
    · -- empty contour: push the new primitive directly
      simp only [hemp, if_true] at h
      have hlen0 : 0 < self.vertices.length := hp1
      simp only [decide_eq_true hlen0, if_true] at h
      rw [Option.some_inj, Prod.mk.injEq] at h
      rw [← h.1]
      refine ⟨?_, rfl⟩
      refine hfin (fun _ =>
        [{ self with location := some (shape.contours.length - 1, 0) }]) ?_ ?_
      · intro p hp
        rw [List.mem_singleton] at hp
        subst hp
        exact ⟨primOK_relocate _ hpOK, hp1⟩
      · intro hkraw _
        have hempty : lc.primitives = [] := by
          cases hx : lc.primitives with
          | nil => rfl
          | cons y ys =>
            rw [hx] at hemp
            exact absurd hemp (by simp)
        obtain ⟨hk, hv⟩ := hanchor lc hjs hkraw hempty
        exact ⟨_, [], rfl, hk, hv⟩

theorem vertexCapacity_congr {p q : ShapePrimitive} (hk : p.kind = q.kind)
    (ho : p.order = q.order) : p.vertexCapacity = q.vertexCapacity := by
  unfold ShapePrimitive.vertexCapacity
  rw [hk, ho]

theorem primOK_congr {p q : ShapePrimitive} (hk : q.kind = p.kind)
    (ho : q.order = p.order) (hv : q.vertices = p.vertices)
    (h : primOK p) : primOK q := by
  intro cap hcap
  rw [vertexCapacity_congr hk ho] at hcap
  unfold ShapePrimitive.vertexCount
  rw [hv]
  exact h cap hcap

/-- Rewriting the last primitive of the last contour in place with a map
that keeps kind, order and vertices preserves the contour invariants. -/
theorem contoursInv_modifyLastPrimitive {s : Shape}
    (f : ShapePrimitive → ShapePrimitive)
    (hf : ∀ p, (f p).kind = p.kind ∧ (f p).order = p.order
      ∧ (f p).vertices = p.vertices)
    (hInv : contoursInv s.contours) :
    contoursInv (s.modifyLastPrimitive f).contours := by
  intro c hc
  have hc' : c ∈ updateLast s.contours
      (fun c => { c with primitives := updateLast c.primitives f }) := hc
  rcases mem_updateLast hc' with hold | ⟨c0, hc0, rfl⟩
  · exact hInv c hold
  · have h0 := hInv c0 hc0
    constructor
    · intro p hp
      have hp' : p ∈ updateLast c0.primitives f := hp
      rcases mem_updateLast hp' with hold2 | ⟨q, hq, rfl⟩
      · exact h0.1 p hold2
      · have hq0 := h0.1 q hq
        obtain ⟨h1, h2, h3⟩ := hf q
        refine ⟨primOK_congr h1 h2 h3 hq0.1, ?_⟩
        unfold ShapePrimitive.vertexCount at hq0 ⊢
        rw [h3]
        exact hq0.2
    · intro hkraw hne
      have hne0 : c0.primitives ≠ [] := by
        intro hcon
        rw [show ({ c0 with primitives := updateLast c0.primitives f } : Contour).primitives
          = updateLast c0.primitives f from rfl, hcon] at hne
        exact hne rfl
      obtain ⟨p, rest, hpr, hpk, hpv⟩ := h0.2 hkraw hne0
      show ∃ p' rest', updateLast c0.primitives f = p' :: rest'
        ∧ p'.kind = .anchor ∧ p'.vertices.length = 1
      cases rest with
      | nil =>
        rw [hpr, updateLast_singleton]
        obtain ⟨h1, _, h3⟩ := hf p
        exact ⟨f p, [], rfl, by rw [h1, hpk], by rw [h3, hpv]⟩
      | cons r rs =>
        rw [hpr]
        exact ⟨p, updateLast (r :: rs) f, rfl, hpk, hpv⟩

/-- The attach dispatch preserves the contour invariants. -/
theorem addToShapeDispatch_inv {self : ShapePrimitive} {shape s' : Shape}
    (hInv : contoursInv shape.contours)
    (hpOK : primOK self) (hp1 : 1 ≤ self.vertexCount)
    (hanchor : ∀ lc, jsAt shape.contours (-1) = some lc → lc.kindRaw = .PATH →
      lc.primitives = [] → self.kind = .anchor ∧ self.vertices.length = 1)
    (h : addToShapeDispatch self shape = some s') :
    contoursInv s'.contours ∧ s'.bezierOrderNum = shape.bezierOrderNum := by
  unfold addToShapeDispatch at h
  split at h
  · unfold splineAddToShape at h
    cases hr : self.addToShape shape with
    | none => simp [hr] at h
    | some r =>
      obtain ⟨s1, added⟩ := r
      have h1 := addToShape_inv hInv hpOK hp1 hanchor hr
      simp only [hr, Option.bind_eq_bind, Option.some_bind] at h
      cases added
      · simp only [Bool.false_eq_true, if_false, Option.some_inj] at h
        rw [← h]
        exact h1
      · simp only [if_true, Option.some_inj] at h
        rw [← h]
        refine ⟨contoursInv_modifyLastPrimitive _ (fun p => ⟨rfl, rfl, rfl⟩) h1.1, ?_⟩
        rw [show (s1.modifyLastPrimitive _).bezierOrderNum = s1.bezierOrderNum from rfl]
        exact h1.2
  · cases hr : self.addToShape shape with
    | none => simp [hr] at h
    | some r =>
      obtain ⟨s1, b2⟩ := r
      simp only [hr, Option.map_some', Option.some_inj] at h
      rw [← h]
      exact addToShape_inv hInv hpOK hp1 hanchor hr

/-- The generic vertex operation preserves the contour invariants. -/
theorem generalVertex_inv {s s' : Shape} {k : VertexOpKind} {pos tc : JSVal}
    (hInv : contoursInv s.contours) (hord : 1 ≤ s.bezierOrderNum)
    (h : s.generalVertex k pos tc = some s') :
    contoursInv s'.contours ∧ s'.bezierOrderNum = s.bezierOrderNum := by
  simp only [Shape.generalVertex] at h
  split at h
  · exact absurd h (by simp)
  · next lastContour heq =>
    split at h
    · exact absurd h (by simp)
    · next prim heq2 =>
      unfold Shape.createPrimitiveShape at heq2
      rcases hcr : primitiveShapeCreatorsGet k lastContour.kind with _ | pk
      · rw [hcr] at heq2
        exact absurd heq2 (by simp)
      · rw [hcr] at heq2
        unfold mkShapePrimitive at heq2
        simp only [List.isEmpty_cons, Bool.false_eq_true, if_false,
          Option.some_inj] at heq2
        subst heq2
        have hres := @addToShapeDispatch_inv _
          { s with vertexProperties := s.createVertexTemplate pos tc } _
          hInv ?_ ?_ ?_ h
        · exact hres
        · -- the freshly created primitive respects its capacity
          intro cap hcap
          show 1 ≤ cap
          cases pk with
          | anchor =>
            have : some 1 = some cap := hcap
            injection this with hc
            omega
          | lineSegment =>
            have : some 1 = some cap := hcap
            injection this with hc
            omega
          | bezierSegment =>
            have : some s.bezierOrderNum = some cap := hcap
            injection this with hc
            omega
          | splineSegment =>
            have : (none : Option ℕ) = some cap := hcap
            exact absurd this (by simp)
          | triangleStrip =>
            have : (none : Option ℕ) = some cap := hcap
            exact absurd this (by simp)
        · exact Nat.le.refl
        · -- into an empty raw-PATH contour only an anchor is created
          intro lc' hjs' hkraw hempty
          have hjs'' : jsAt s.contours (-1) = some lc' := hjs'
          rw [heq] at hjs''
          injection hjs'' with hjs''
          subst hjs''
          have hkind : lastContour.kind = .EMPTY_PATH := by
            unfold Contour.kind
            rw [hempty, hkraw]
            rfl
          rw [hkind] at hcr
          refine ⟨?_, rfl⟩
          show pk = .anchor
          cases k with
          | vertex =>
            have : some PrimKind.anchor = some pk := hcr
            injection this with hthis
            exact hthis.symm
          | bezierVertex =>
            have : some PrimKind.anchor = some pk := hcr
            injection this with hthis
            exact hthis.symm
          | splineVertex =>
            have : some PrimKind.anchor = some pk := hcr
            injection this with hthis
            exact hthis.symm

theorem vertex_inv {s s' : Shape} {pos tc : JSVal} {cl : Bool}
    (hInv : contoursInv s.contours) (hord : 1 ≤ s.bezierOrderNum)
    (h : s.vertex pos tc cl = some s') :
    contoursInv s'.contours ∧ s'.bezierOrderNum = s.bezierOrderNum := by
  unfold Shape.vertex at h
  cases hg : s.generalVertex .vertex pos tc with
  | none => simp [hg] at h
  | some s1 =>
    simp only [hg, Option.map_some', Option.some_inj] at h
    rw [← h]
    obtain ⟨h1, h2⟩ := generalVertex_inv hInv hord hg
    refine ⟨contoursInv_modifyLastPrimitive _ (fun p => ⟨rfl, rfl, rfl⟩) h1, ?_⟩
    rw [show (s1.modifyLastPrimitive _).bezierOrderNum = s1.bezierOrderNum from rfl]
    exact h2

/-- A spline segment's `close()` call only ever succeeds on a spline, and
it changes nothing but the end-mode. -/
theorem close_fields {p q : ShapePrimitive} (h : p.close = some q) :
    p.kind = .splineSegment ∧ q.kind = p.kind ∧ q.order = p.order
      ∧ q.vertices = p.vertices := by
  have hk : p.kind = .splineSegment := by
    cases hk : p.kind
    case splineSegment => rfl
    all_goals unfold ShapePrimitive.close at h
    all_goals rw [hk] at h
    all_goals exact absurd h (by simp)
  unfold ShapePrimitive.close at h
  rw [hk] at h
  simp only [Option.some_inj] at h
  subst h
  exact ⟨hk, hk.symm, rfl, rfl⟩

/-- Replacing the last primitive of a contour with a primitive of the same
kind, order and vertex list preserves the per-contour invariants, provided
that primitive is a spline (so it cannot be the anchor head). -/
theorem contourInv_close {ct : Contour} {lastSeg seg' : ShapePrimitive}
    (hlast : jsAt ct.primitives (-1) = some lastSeg)
    (hkindSpline : lastSeg.kind = .splineSegment)
    (hfields : seg'.kind = lastSeg.kind ∧ seg'.order = lastSeg.order
      ∧ seg'.vertices = lastSeg.vertices)
    (h0 : contourPrimsOK ct ∧ contourFirstAnchorOK ct) :
    contourPrimsOK { ct with primitives := updateLast ct.primitives (fun _ => seg') }
    ∧ contourFirstAnchorOK
        { ct with primitives := updateLast ct.primitives (fun _ => seg') } := by
  obtain ⟨ps, hps⟩ := exists_concat_of_jsAt_neg_one hlast
  have hlastmem : lastSeg ∈ ct.primitives := by
    rw [hps]
    simp
  have hlastInv := h0.1 lastSeg hlastmem
  constructor
  · intro p hp
    have hp' : p ∈ updateLast ct.primitives (fun _ => seg') := hp
    rcases mem_updateLast hp' with hold | ⟨q, _, rfl⟩
    · exact h0.1 p hold
    · refine ⟨primOK_congr hfields.1 hfields.2.1 hfields.2.2 hlastInv.1, ?_⟩
      unfold ShapePrimitive.vertexCount at hlastInv ⊢
      rw [hfields.2.2]
      exact hlastInv.2
  · intro hkraw _
    have hne0 : ct.primitives ≠ [] := by
      rw [hps]
      simp
    obtain ⟨p, rest, hpr, hpk, hpv⟩ := h0.2 hkraw hne0
    show ∃ p' rest', updateLast ct.primitives (fun _ => seg') = p' :: rest'
      ∧ p'.kind = .anchor ∧ p'.vertices.length = 1
    cases ps with
    | nil =>
      rw [List.nil_append] at hps
      rw [hps] at hpr
      have hpl : p = lastSeg := by
        injection hpr with h1 _
        exact h1.symm
      subst hpl
      rw [hpk] at hkindSpline
      exact absurd hkindSpline (by simp)
    | cons p0 ps' =>
      rw [hps] at hpr
      have hp0 : p = p0 := by
        injection hpr with h1 _
        exact h1.symm
      subst hp0
      rw [hps, updateLast_concat]
      exact ⟨p, ps' ++ [seg'], rfl, hpk, hpv⟩

/-- `endContour` preserves the contour invariants. -/
theorem endContour_inv {s s' : Shape} {m : CloseMode} {i : ℕ}
    (hInv : contoursInv s.contours) (hord : 1 ≤ s.bezierOrderNum)
    (h : s.endContour m i = some s') :
    contoursInv s'.contours ∧ s'.bezierOrderNum = s.bezierOrderNum := by
  cases m with
  | OPEN =>
    simp only [Shape.endContour, Option.some_inj] at h
    rw [← h]
    exact ⟨hInv, rfl⟩
  | CLOSE =>
    simp only [Shape.endContour] at h
    split at h
    · exact absurd h (by simp)
    · next ct hct =>
      split at h
      · exact absurd h (by simp)
      · next av hav =>
        split at h
        · exact absurd h (by simp)
        · next lastSeg hlast =>
          split at h
          · split at h
            · exact absurd h (by simp)
            · -- self-handling spline: delegate to close()
              split at h
              · exact absurd h (by simp)
              · next seg' hclose =>
                rw [Option.some_inj] at h
                rw [← h]
                refine ⟨?_, rfl⟩
                intro c hc
                rcases List.mem_or_eq_of_mem_set hc with hold | rfl
                · exact hInv c hold
                · have hctmem : ct ∈ s.contours := by
                    rw [jsAt_coe] at hct
                    exact List.getElem?_mem hct
                  have hlastct : jsAt ct.primitives (-1) = some lastSeg := by
                    have h2 : s.atPrimitive i (-1) = some lastSeg := hlast
                    unfold Shape.atPrimitive Shape.atContour at h2
                    rw [hct] at h2
                    simpa using h2
                  obtain ⟨hk, hf1, hf2, hf3⟩ := close_fields hclose
                  exact contourInv_close hlastct hk ⟨hf1, hf2, hf3⟩ (hInv ct hctmem)
            · -- splice, closing vertex, splice back
              split at h
              · exact absurd h (by simp)
              · next s2 hvx =>
                rw [Option.some_inj] at h
                rw [← h]
                have hInv1 : contoursInv (s.contours.take (i + 1)) :=
                  contoursInv_sublist (List.take_subset _ _) hInv
                obtain ⟨h1, h2⟩ := vertex_inv (s :=
                  { s with
                    contours := s.contours.take (i + 1)
                    vertexProperties := patchTemplate s.vertexProperties av })
                  hInv1 hord hvx
                refine ⟨?_, h2⟩
                show contoursInv (s2.contours ++ s.contours.drop (i + 1))
                exact contoursInv_append h1
                  (contoursInv_sublist (List.drop_subset _ _) hInv)
          · rw [Option.some_inj] at h
            rw [← h]
            exact ⟨hInv, rfl⟩

theorem contourInv_empty (k : ShapeKind) :
    contourPrimsOK ⟨k, []⟩ ∧ contourFirstAnchorOK ⟨k, []⟩ :=
  ⟨fun p hp => absurd hp (by simp), fun _ hne => absurd rfl hne⟩

theorem beginContour_inv {s : Shape} (k : ShapeKind)
    (hInv : contoursInv s.contours) :
    contoursInv (s.beginContour k).contours
    ∧ (s.beginContour k).bezierOrderNum = s.bezierOrderNum := by
  unfold Shape.beginContour
  have hnew : contoursInv [⟨k, []⟩] := by
    intro c hc
    rw [List.mem_singleton] at hc
    subst hc
    exact contourInv_empty k
  cases hc : ((jsAt s.contours (-1)).map Contour.kind == some ShapeKind.EMPTY_PATH)
  · simp only [hc, Bool.false_eq_true, if_false]
    exact ⟨contoursInv_append hInv hnew, trivial⟩
  · simp only [hc, if_true]
    refine ⟨contoursInv_append ?_ hnew, trivial⟩
    exact contoursInv_sublist (List.dropLast_subset _) hInv

theorem applyOp_inv {s s' : Shape} {op : BuildOp} (hInv : buildInv s)
    (h : s.applyOp op = some s') : buildInv s' := by
  obtain ⟨hc, ho⟩ := hInv
  cases op with
  | vertexOp pos tc cl =>
    obtain ⟨h1, h2⟩ := vertex_inv hc ho h
    refine ⟨h1, ?_⟩
    rw [h2]
    exact ho
  | bezierVertexOp pos tc =>
    obtain ⟨h1, h2⟩ := generalVertex_inv hc ho h
    refine ⟨h1, ?_⟩
    rw [h2]
    exact ho
  | splineVertexOp pos tc =>
    obtain ⟨h1, h2⟩ := generalVertex_inv hc ho h
    refine ⟨h1, ?_⟩
    rw [h2]
    exact ho
  | beginContourOp k =>
    have h' : some (s.beginContour k) = some s' := h
    rw [Option.some_inj] at h'
    rw [← h']
    obtain ⟨h1, h2⟩ := beginContour_inv k hc
    refine ⟨h1, ?_⟩
    rw [h2]
    exact ho
  | endContourOp m =>
    obtain ⟨h1, h2⟩ := endContour_inv hc ho h
    refine ⟨h1, ?_⟩
    rw [h2]
    exact ho
  | endShapeOp m =>
    cases m with
    | OPEN =>
      have h' : some s = some s' := h
      rw [Option.some_inj] at h'
      rw [← h']
      exact ⟨hc, ho⟩
    | CLOSE =>
      have h' : s.endContour .CLOSE 0 = some s' := h
      obtain ⟨h1, h2⟩ := endContour_inv hc ho h'
      refine ⟨h1, ?_⟩
      rw [h2]
      exact ho

theorem runOps_inv {ops : List BuildOp} {s s' : Shape} (hInv : buildInv s)
    (h : s.runOps ops = some s') : buildInv s' := by
  induction ops generalizing s with
  | nil =>
    unfold Shape.runOps at h
    rw [Option.some_inj] at h
    rw [← h]
    exact hInv
  | cons op rest ih =>
    unfold Shape.runOps at h
    cases ha : s.applyOp op with
    | none =>
      rw [ha] at h
      simp at h
    | some s1 =>
      rw [ha] at h
      simp only [Option.some_bind] at h
      exact ih (applyOp_inv hInv ha) h

theorem beginShape_init (tmpl : JSObj) (k : ShapeKind) :
    buildInv ((Shape.mk0 tmpl).beginShape k) := by
  have hcont : ((Shape.mk0 tmpl).beginShape k).contours = [⟨k, []⟩] := rfl
  have hord : ((Shape.mk0 tmpl).beginShape k).bezierOrderNum = 3 := rfl
  constructor
  · rw [hcont]
    intro c hc
    rw [List.mem_singleton] at hc
    subst hc
    exact contourInv_empty k
  · rw [hord]
    omega

/-- Claim C6: for every sequence of build operations starting from
`beginShape` (vertex, bezierVertex, splineVertex, beginContour, endContour,
endShape), every primitive stored in any contour respects
`vertexCount ≤ vertexCapacity`, and the first primitive of every non-empty
`PATH` contour is exactly one anchor holding exactly one vertex. -/
theorem spec_C6 (tmpl : JSObj) (kind : ShapeKind) (ops : List BuildOp)
    (s' : Shape)
    (h : ((Shape.mk0 tmpl).beginShape kind).runOps ops = some s') :
    (∀ c ∈ s'.contours, ∀ p ∈ c.primitives, primOK p)
    ∧ (∀ c ∈ s'.contours, c.kindRaw = .PATH → c.primitives ≠ [] →
        ∃ p rest, c.primitives = p :: rest
          ∧ p.kind = .anchor ∧ p.vertices.length = 1) := by
  obtain ⟨hc, -⟩ := runOps_inv (beginShape_init tmpl kind) h
  exact ⟨fun c hcm p hp => ((hc c hcm).1 p hp).1, fun c hcm => (hc c hcm).2⟩

/-- Witness instantiating `spec_C6` on the spec's worked triangle example
(`vertex`, `vertex`, `vertex`, `endShape(CLOSE)`). -/
theorem spec_C6_witness :
    (∀ c ∈ w6shape.contours, ∀ p ∈ c.primitives, primOK p)
    ∧ (∀ c ∈ w6shape.contours, c.kindRaw = .PATH → c.primitives ≠ [] →
        ∃ p rest, c.primitives = p :: rest
          ∧ p.kind = .anchor ∧ p.vertices.length = 1) :=
  spec_C6 [("position", .vec 0 0 0)] .PATH w6ops w6shape (by decide)

/-- Claim C10: constructing any `ShapePrimitive` with zero vertices is an
error, and consequently (the merge moving vertices only out of the new,
unattached primitive, which is discarded when emptied) every primitive
stored in any contour of a built shape holds at least one vertex. -/
theorem spec_C10 :
    (∀ (kind : PrimKind) (order : ℕ),
      mkShapePrimitive kind order [] =
        .error "At least one vertex must be passed to the constructor.")
    ∧ (∀ (tmpl : JSObj) (kind : ShapeKind) (ops : List BuildOp) (s' : Shape),
        ((Shape.mk0 tmpl).beginShape kind).runOps ops = some s' →
        ∀ c ∈ s'.contours, ∀ p ∈ c.primitives, 1 ≤ p.vertexCount) := by
  refine ⟨fun kind order => rfl, ?_⟩
  intro tmpl kind ops s' h c hcm p hp
  obtain ⟨hc, -⟩ := runOps_inv (beginShape_init tmpl kind) h
  exact ((hc c hcm).1 p hp).2

/-- Witness instantiating `spec_C10` on the anchor constructor and the
concrete triangle build. -/
theorem spec_C10_witness :
    mkShapePrimitive .anchor 0 [] =
      .error "At least one vertex must be passed to the constructor."
    ∧ 1 ≤ w6anchor.vertexCount := by
  obtain ⟨h1, h2⟩ := spec_C10
  refine ⟨h1 .anchor 0, ?_⟩
  exact h2 [("position", .vec 0 0 0)] .PATH w6ops w6shape (by decide)
    w6contour (by decide) w6anchor (by decide)

end CustomShapes
